import Mathlib

/-!
Verification of `scripts/merge_people.py` (the people-directory merge script).

The script's pure core is shallowly embedded here:

* the person-name regular expressions (`_CAMELCASE_PERSON`, `_QUOTED_PERSON`,
  the lowercase-username pattern, the literal-period rule) become
  deterministic matchers over `List Char` — determinism is justified because
  every repetition in those patterns is followed by a character class
  disjoint from the repeated class, so greedy matching is the only matching;
  Python's `$` anchor (end of string, or just before one trailing newline)
  is modelled exactly;
* the curated exclusion sets become `List String` constants copied verbatim
  from the script;
* filesystem nodes become a `Node` structure carrying the attributes the
  script reads (full path, base name, directory flag, aggregate content
  size as computed by `_entry_size`, and the relative paths of contained
  `.md` documents used for redirect generation);
* the planning loop of `main` (moves, removals, redirect generation), the
  `_redirects.json` merge, and the dry-run gate become pure functions;
  fallible spots (indexing into a possibly-empty list, a missing dictionary
  key) return `Option`, mirroring where the Python would raise.
-/

/-! ## Character classes (ASCII ranges used by the script's regexes) -/

/-- `[A-Z]` -/
def isUpperA (c : Char) : Bool := decide (65 ≤ c.toNat) && decide (c.toNat ≤ 90)

/-- `[a-z]` -/
def isLowerA (c : Char) : Bool := decide (97 ≤ c.toNat) && decide (c.toNat ≤ 122)

/-- `[0-9]` -/
def isDigitA (c : Char) : Bool := decide (48 ≤ c.toNat) && decide (c.toNat ≤ 57)

/-- `[A-Za-z]` -/
def isLetterA (c : Char) : Bool := isUpperA c || isLowerA c

/-- `[a-z0-9._]` — the character class of the lowercase-username pattern. -/
def isUserChar (c : Char) : Bool :=
  isLowerA c || isDigitA c || decide (c.toNat = 46) || decide (c.toNat = 95)

/-- Python's `$` anchor for `re.match`: the remaining input is empty, or is a
single trailing newline. -/
def endAnchor (l : List Char) : Bool :=
  match l with
  | [] => true
  | [c] => decide (c.toNat = 10)
  | _ => false

/-- Remainder of `.*$`: no newline may remain except a single final one. -/
def restAnchor : List Char → Bool
  | [] => true
  | [_] => true
  | c :: l => !(decide (c.toNat = 10)) && restAnchor l

/-! ## The regexes of `merge_people.py`, as deterministic matchers -/

/-- `_CAMELCASE_PERSON = ^[A-Z][a-z]+[A-Z][a-z]+$` -/
def camelMatch (l : List Char) : Bool :=
  match l with
  | c1 :: rest1 =>
    isUpperA c1 &&
      (match rest1 with
       | c2 :: rest2 =>
         isLowerA c2 &&
           (match List.dropWhile isLowerA rest2 with
            | c3 :: rest3 =>
              isUpperA c3 &&
                (match rest3 with
                 | c4 :: rest4 => isLowerA c4 && endAnchor (List.dropWhile isLowerA rest4)
                 | [] => false)
            | [] => false)
       | [] => false)
  | [] => false

/-- The `(?:[-'][A-Za-z]+)*` particle groups of `_QUOTED_PERSON`: greedily
consume hyphen/apostrophe-joined letter blocks, returning the rest.
Structural recursion on a fuel argument (each step consumes at least two
characters while fuel drops by one, so fuel starting at the list length
never runs out before the list does). -/
def particleChompF : Nat → List Char → List Char
  | 0, l => l
  | fuel + 1, l =>
    match l with
    | c :: c2 :: rest =>
      if (decide (c.toNat = 45) || decide (c.toNat = 39)) && isLetterA c2 then
        particleChompF fuel (List.dropWhile isLetterA rest)
      else l
    | _ => l

def particleChomp (l : List Char) : List Char := particleChompF l.length l

/-- `_QUOTED_PERSON = ^[A-Z][a-z]+(?:[-'][A-Za-z]+)* [A-Z][a-z]+.*$` -/
def quotedMatch (l : List Char) : Bool :=
  match l with
  | c1 :: rest1 =>
    isUpperA c1 &&
      (match rest1 with
       | c2 :: rest2 =>
         isLowerA c2 &&
           (match particleChomp (List.dropWhile isLowerA rest2) with
            | c3 :: rest3 =>
              decide (c3.toNat = 32) &&
                (match rest3 with
                 | c4 :: c5 :: rest4 => isUpperA c4 && isLowerA c5 && restAnchor rest4
                 | _ => false)
            | [] => false)
       | [] => false)
  | [] => false

/-- `^[a-z][a-z0-9._]+$` — the lowercase-username pattern. -/
def usernameMatch (l : List Char) : Bool :=
  match l with
  | c1 :: c2 :: rest =>
    isLowerA c1 && isUserChar c2 && endAnchor (List.dropWhile isUserChar rest)
  | _ => false

/-- `re.findall(r"[A-Z]", stem)` count: number of ASCII capitals. -/
def upperCount (l : List Char) : Nat := (l.filter isUpperA).length

/-- `re.findall(r"[A-Z][a-z]+", stem)`: the decomposed word-parts (leftmost,
non-overlapping, greedy — deterministic since `[a-z]` never starts a match).
Fuel-structured recursion; fuel starting at the list length suffices since
every step shortens the list at least as fast as the fuel. -/
def camelPartsF : Nat → List Char → List (List Char)
  | 0, _ => []
  | _ + 1, [] => []
  | _ + 1, [_] => []
  | fuel + 1, c :: c2 :: rest =>
    if isUpperA c && isLowerA c2 then
      (c :: c2 :: List.takeWhile isLowerA rest) ::
        camelPartsF fuel (List.dropWhile isLowerA rest)
    else camelPartsF fuel (c2 :: rest)

def camelParts (l : List Char) : List (List Char) := camelPartsF l.length l

/-- `pre` is a literal prefix of `l` (Python `str.startswith`). -/
def leadsWith : List Char → List Char → Bool
  | [], _ => true
  | _ :: _, [] => false
  | a :: as, b :: bs => a == b && leadsWith as bs

/-- `"." in stem` -/
def hasDot (l : List Char) : Bool := l.any (fun c => decide (c.toNat = 46))

/-! ## The curated exclusion sets (copied verbatim from the script) -/

def NON_PERSON_CAMELCASE : List String := [
  "ActivePython",
  "ActiveState",
  "AdapterRegistry",
  "AbstractBaseClasses",
  "AlternateLambdaSyntax",
  "AlternativeDescriptionOfProperty",
  "AlternativePathClass",
  "AlternativePathDiscussion",
  "AlternativePathModule",
  "AlternativePathModuleTests",
  "AppsWithPythonScripting",
  "AutoHotkey",
  "BeginnersGuide",
  "BitPim",
  "BooLanguage",
  "BuildBot",
  "CherryPy",
  "CloudPyPI",
  "CodeIntelligence",
  "CodingProjectIdeas",
  "ComputedAttributesUsingPropertyObjects",
  "ConfigParser",
  "CorbaPython",
  "CreatePythonExtensions",
  "DatabaseInterfaces",
  "DatabaseProgramming",
  "DataRepresentation",
  "DesignByContract",
  "DesktopProgramming",
  "DistributedProgramming",
  "DjangoNotes",
  "EasyInstall",
  "ExtensionClass",
  "GameProgramming",
  "GuiProgramming",
  "GuiBooks",
  "HierConfig",
  "HandlingExceptions",
  "IntegratedDevelopmentEnvironments",
  "InternetProgramming",
  "LanguageParsing",
  "LibraryCatalog",
  "MacPython",
  "MapReduce",
  "MetaClasses",
  "MovingToPythonFromOtherLanguages",
  "NetBeans",
  "NetworkProgramming",
  "NumericAndScientific",
  "ObserverPattern",
  "OperatorsOverview",
  "PackagingTutorial",
  "PointsAndRectangles",
  "PoweredBy",
  "ProjectsForLearning",
  "PythonAdvocacy",
  "PythonBooks",
  "PythonConferences",
  "PythonConsulting",
  "PythonEditors",
  "PythonEvents",
  "PythonForArtificialIntelligence",
  "PythonForScientificComputing",
  "PythonGameLibraries",
  "PythonGraphics",
  "PythonHosting",
  "PythonImplementations",
  "PythonInMusic",
  "PythonPeriodicals",
  "PythonSpeed",
  "PythonTraining",
  "PythonWebsite",
  "ScriptableInPython",
  "ShowMeDo",
  "SimplePrograms",
  "SimpleXMLRPCServer",
  "SpeedUp",
  "StackOverflow",
  "StructureAnnotation",
  "StructuredText",
  "SummerOfCode",
  "SwitchStatement",
  "TestDrivenDevelopment",
  "TkInter",
  "TimeComplexity",
  "TurboGears",
  "UnicodeData",
  "UsingPickle",
  "VirtualEnv",
  "WebFrameworks",
  "WebProgramming",
  "WindowsCompilers",
  "WxPython",
  "XmlRpc",
  "XmlParsing",
  "Albatross",
  "Aquarium",
  "Django",
  "Flask",
  "Twisted",
  "Zope",
  "Plone",
  "Pylons",
  "Quixote",
  "Tornado",
  "PyGame",
  "PyOpenGL",
  "PyGTK",
  "PyQt",
  "NumPy",
  "SciPy",
  "Pyrex",
  "Cython",
  "DistUtils",
  "SetupTools",
  "Buildout",
  "BoostPython"
]

def NON_PERSON_DIRS : List String := [
  "Admin",
  "Asking for Help",
  "Email SIG",
  "JAM",
  "Podcast",
  "PythonLibraryReference"
]

def NON_PERSON_PREFIXES_LIST : List String := [
  "App",
  "Array",
  "Article",
  "Ask",
  "Beginners",
  "Bit",
  "Bitwise",
  "Black",
  "Boa",
  "Boston",
  "Boulder",
  "Box",
  "Brain",
  "Bug",
  "Build",
  "Bundle",
  "Bytes",
  "Can",
  "Catalog",
  "Cerca",
  "Cgi",
  "Chandler",
  "Cheese",
  "ChiPy",
  "Choosing",
  "Cleanup",
  "Clear",
  "Cmd",
  "Code",
  "Commandline",
  "Commercial",
  "Common",
  "Comparing",
  "Conceptual",
  "Config",
  "Continuous",
  "Convention",
  "Con",
  "Cool",
  "Core",
  "Crashing",
  "Creating",
  "Cubic",
  "Db",
  "Dbus",
  "Dead",
  "Decorator",
  "Default",
  "Desert",
  "Deutsche",
  "Development",
  "Diacritical",
  "Dictionary",
  "Distribution",
  "Doc",
  "Dr",
  "Dubious",
  "Dunder",
  "Dvcs",
  "Eff",
  "Element",
  "Email",
  "Embedded",
  "EmPy",
  "Enfold",
  "Engineering",
  "Enthought",
  "Enumeration",
  "Environment",
  "EpyDoc",
  "Escaping",
  "Executable",
  "Execution",
  "Extreme",
  "Find",
  "Fiscal",
  "For",
  "Format",
  "Form",
  "Free",
  "Front",
  "Functional",
  "Function",
  "FxPy",
  "General",
  "GmPy",
  "Gnome",
  "Gnu",
  "Google",
  "Graphics",
  "Grok",
  "Guido",
  "Harvest",
  "Health",
  "Helping",
  "Hidden",
  "High",
  "Hjemmeside",
  "Hyper",
  "Idea",
  "Image",
  "Imp",
  "Information",
  "Integration",
  "Intermediate",
  "Internet",
  "JAM",
  "JeXt",
  "Jira",
  "JoBase",
  "Jython",
  "Kategori",
  "Key",
  "Kirby",
  "Language",
  "Launchpad",
  "Learning",
  "Leo",
  "Lightning",
  "Localizing",
  "Logging",
  "Logic",
  "LoGix",
  "Magyar",
  "Martellibot",
  "Matplotlib",
  "Memento",
  "MetaKit",
  "Microsoft",
  "MiddleKit",
  "MidSummer",
  "MiniDom",
  "Modifiche",
  "ModPython",
  "MontaVista",
  "More Info",
  "Movable",
  "Mpl",
  "Multiple",
  "Myth",
  "Navigation",
  "Networked",
  "Networking",
  "NodeBox",
  "NumArray",
  "Open",
  "Operator",
  "Option",
  "OptParse",
  "Organizers",
  "Package",
  "Parallel",
  "Patch",
  "Path",
  "Pattern",
  "Pdb",
  "People",
  "Perl",
  "Persistence",
  "Php",
  "Podcast",
  "Polish",
  "Portable",
  "PostScript",
  "Presentation",
  "Previous Meeting",
  "Print",
  "Processo",
  "Proxy",
  "PsfMaterials",
  "PullDom",
  "Py ",
  "PyAmazon",
  "PyAnt",
  "PyAudio",
  "PyBison",
  "PyBrenda",
  "PyChart",
  "PyChecker",
  "PyChem",
  "PyCrust",
  "PyDev",
  "PyDoc",
  "PyFit",
  "PyFltk",
  "PyGeo",
  "PyGobject",
  "PyGtk",
  "PyInstaller",
  "PyInterpreter",
  "PyJaipur",
  "PyJamas",
  "PyLaunchy",
  "PyLint",
  "PyLog",
  "PyLucene",
  "PyMat",
  "PyMedia",
  "PyMeld",
  "PyMite",
  "PyObjectivec",
  "PyPerl",
  "PyScripter",
  "PySerial",
  "PySide",
  "PySoy",
  "PyTable",
  "PyTables",
  "PyTextile",
  "PyTrails",
  "PyUi",
  "PyUnit",
  "PyWeek",
  "PyWiew",
  "Pydotorg",
  "Pyed",
  "Pyjamas",
  "Pythag",
  "Question",
  "Range",
  "Rdf",
  "Recipe",
  "RedHat",
  "Registration",
  "Regular",
  "Render",
  "Representation",
  "Restricted",
  "Retrograde",
  "RoundUp",
  "Rss",
  "SageMath",
  "Salem",
  "SanFrancisco",
  "SchoolTool",
  "Scientific",
  "SciTe",
  "Scripting",
  "SeaPig",
  "SecureShell",
  "Semplici",
  "Seneste",
  "Session",
  "Shell",
  "Siac",
  "SimpleTodo",
  "SimPy",
  "Singleton",
  "SiteNavig",
  "SkunkWeb",
  "SourceForge",
  "Spam",
  "Special Interest",
  "Specta",
  "Sponsor",
  "Spycy",
  "SqlObject",
  "Stackless",
  "Starship",
  "State ",
  "State Machine",
  "Stream",
  "String",
  "Strukturerad",
  "Subclassing",
  "Submitting",
  "Sugar",
  "SymPy",
  "Syntax",
  "Tahoe",
  "Talk ",
  "Talk",
  "TcpCommunication",
  "TestOob",
  "TestSoftware",
  "Texas",
  "TheCircle",
  "Thread",
  "Tiny",
  "TkZinc",
  "Tokyo",
  "Topically",
  "TracTracker",
  "Trouve",
  "Tuple",
  "TypeError",
  "Ubuntu",
  "UdpCommunication",
  "Unicode",
  "Useful",
  "UserKit",
  "Using",
  "Venom",
  "Version",
  "Virtual",
  "Visual",
  "Voicent",
  "Volunteer",
  "WebAccessibility",
  "WebApplications",
  "WebComponents",
  "WebKit",
  "WebServers",
  "WebServices",
  "WebStack",
  "WebStandardisation",
  "WebWare",
  "Webizing",
  "Webware",
  "WegWeiser",
  "WikiGuidelines",
  "WikiSpam",
  "WikiUsers",
  "WxDesigner",
  "WxGlade",
  "XmlBooks",
  "XmlDatabases",
  "ZeroPrice",
  "ZodbSprint"
]

def NON_PERSON_EXACT : List String := [
  "AnyGui",
  "AppEngine",
  "ApplicationFrameworks",
  "ApplicationInfrastructure",
  "AppLocalization",
  "AppLogging",
  "AprilFools",
  "ArithmoGraph",
  "ArlingtonSprint",
  "ArrayInterface",
  "ArticleIdeas",
  "AskApache",
  "Attendee Notes",
  "BeginnersWorkshop",
  "BeThon",
  "BinPy",
  "BitArrays",
  "BitManipulation",
  "BitwiseOperators",
  "BlackRose",
  "BlaisePascal",
  "BoaConstructor",
  "BostonPig",
  "BoulderJam",
  "BoulderSprint",
  "BoxModel",
  "BrainStorm",
  "BrugerIndstillinger",
  "BugTracking",
  "Building Python with the free MS C Toolkit",
  "BuildStatically",
  "BundleBuilder",
  "BytesStr",
  "CanDo",
  "CatalogSig",
  "CercaPagina",
  "CgiScripts",
  "ChandlerBof",
  "ChandlerSprint",
  "CheeseShop",
  "ChiPy",
  "ChoosingDatabase",
  "CleanupUrllib",
  "ClearSilver",
  "CmdModule",
  "CodeCoverage",
  "CodeTag",
  "CommandlineTools",
  "CommercialServices",
  "CommonIdeas",
  "ComparingTypes",
  "ConceptualRoadmap",
  "ConfigObj",
  "ConText",
  "ContinuousIntegration",
  "ConventionHowto",
  "CoolGoose",
  "Core Python",
  "CoreDevelopment",
  "CoreSprint",
  "CrashingPython",
  "CreatingBuzz",
  "CubicTemp",
  "DbObj",
  "DbusExamples",
  "DeadLink",
  "DeadLinks",
  "DecoratorPattern",
  "DefaultEncoding",
  "DesertPy",
  "DeutscheSchlangen",
  "DevelopmentTools",
  "DiacriticalEditor",
  "DictionaryKeys",
  "DistributionUtilities",
  "DocSig",
  "DocTools",
  "DocutilsBof",
  "DocutilsSprint",
  "DrPython",
  "DrScheme",
  "DubiousPython",
  "DunderAlias",
  "DvcsComparison",
  "EffBot",
  "ElementTree",
  "EmPy",
  "EmailSprint",
  "EmbeddedPython",
  "Enfold Systems",
  "EngineeringLibraries",
  "EnthoughtPython",
  "EnumerationProgramming",
  "EnvironmentVariables",
  "EpyDoc",
  "EscapingHtml",
  "EscapingXml",
  "ExecutableModules",
  "ExecutionScenarios",
  "ExtremeProgramming",
  "FindSide",
  "FiscalSponsorship",
  "ForLoop",
  "ForSide",
  "FormatReference",
  "FormEncode",
  "FreeHosts",
  "FreeMemory",
  "FreeSoftware",
  "FrontPage",
  "FunctionalProgramming",
  "FunctionWrappers",
  "FxPy",
  "GeneralLibraries",
  "GmPy",
  "GnomePython",
  "GnuEmacs",
  "GnuEnterprise",
  "GoogleSprint",
  "GoogleTips",
  "GraphicsBof",
  "GrokSprint",
  "GuidovanRobot",
  "HarvestMan",
  "HealthCare",
  "HelpingPython",
  "HiddenJewels",
  "HighScore",
  "HjemmesideSkabelon",
  "HyperToons",
  "IdeaRepository",
  "ImageMagick",
  "ImpModule",
  "InformationRetrieval",
  "IntegrationLab",
  "Intermediate Conundrums",
  "IntermediatesGuide",
  "InternetCafe",
  "InternetSupport",
  "JeXt",
  "JiraTracker",
  "JoBase",
  "JythonBooks",
  "JythonProjects",
  "JythonSprint",
  "JythonUses",
  "KategoriHjemmeside",
  "KategoriKategori",
  "KeyError",
  "KirbyBase",
  "LanguageComparisons",
  "LaunchpadTracker",
  "LearningRepertoire",
  "LeoEditor",
  "LightningTalks",
  "LocalizingChandler",
  "LoggingPackage",
  "LogicTools",
  "LoGix",
  "MagyarPython",
  "MartelliBot",
  "MatplotlibSprint",
  "MementoPattern",
  "MetaKit",
  "Microsoft Access",
  "MiddleKit",
  "MidSummer",
  "MiniDom",
  "ModificheRecenti",
  "ModPython",
  "MontaVista",
  "More Info",
  "MovablePython",
  "MplMentors",
  "MultipleDispatch",
  "MythDebunking",
  "NavigationSite",
  "NetworkedData",
  "NetworkingSupport",
  "NodeBox",
  "NumArray",
  "Open Space",
  "OpenEmbedded",
  "OpenKomodo",
  "OpenSource",
  "OpenSpace",
  "OperatorHook",
  "OptionParsing",
  "OptParse",
  "Organizers Meetings Connection Details",
  "PackagePopularity",
  "ParallelDistutils",
  "ParallelProcessing",
  "PatchTriage",
  "PathClass",
  "PathModule",
  "PatternProgramming",
  "PdbImprovments",
  "PeopleFilter",
  "PerlPhrasebook",
  "PersistenceTools",
  "PhpPhrasebook",
  "Polish Python Coders Group",
  "PortablePython",
  "PostScript",
  "PresentationSoftware",
  "Previous Meeting on October 11 2007",
  "PrintFails",
  "ProcessoProgramma",
  "ProxyProgramming",
  "PsfMaterials",
  "PullDom",
  "Py Swallow Mail",
  "PyAmazon",
  "PyAnt",
  "PyAudio",
  "PyBison",
  "PyBrenda",
  "PyChart",
  "PyChecker",
  "PyChem",
  "PyCrust",
  "PyDev",
  "PyDoc",
  "PydotorgRedesign",
  "PyedPyers",
  "PyFit",
  "PyFltk",
  "PyGeo",
  "PyGobject",
  "PyGtk",
  "PyInstaller",
  "PyInterpreter",
  "PyJaipur",
  "PyJamas",
  "PyjamasDesktop",
  "PyLaunchy",
  "PyLint",
  "PyLog",
  "PyLucene",
  "PyMat",
  "PyMedia",
  "PyMeld",
  "PyMite",
  "PyObjectivec",
  "PyPerl",
  "PyPerlish",
  "PyScripter",
  "PySerial",
  "PySide",
  "PySoy",
  "PyTable",
  "PyTables",
  "PyTextile",
  "PythagoreanTheorem",
  "PyTrails",
  "PyUi",
  "PyUnit",
  "PyWeek",
  "PyWiew",
  "QuestionStaticmethod",
  "QuestionType",
  "RangeGenerator",
  "RdfLib",
  "RdfLibraries",
  "RecipeTemplate",
  "RedHat",
  "Registrations Available",
  "RegularExpression",
  "RenderMan",
  "RepresentationError",
  "RestrictedExecution",
  "RetrogradeOrbit",
  "RoundUp",
  "RssLibraries",
  "SageMath",
  "Salem Snakes - Python Club",
  "SanFrancisco",
  "SchoolTool",
  "ScientificPython",
  "SciTe",
  "ScriptingJava",
  "SeaPig",
  "SecureShell",
  "Semplici Programmi versione Italiana",
  "SenesteRettelser",
  "SessionChair",
  "ShellRun",
  "SiacNyse",
  "SimpleTodo",
  "SimPy",
  "SingletonProgramming",
  "SiteNavigering",
  "SkunkWeb",
  "SourceForge",
  "SpamPrevention",
  "Special Interest Groups",
  "SpectaGen",
  "SpectaReg",
  "SponsorOffers",
  "SpycyRoll",
  "SqlObject",
  "StacklessPython",
  "StarshipPython",
  "StarshipTransfer",
  "State Machine via Decorators",
  "StateProgramming",
  "StreamReader",
  "StreamRecoder",
  "StreamWriter",
  "StringFormatting",
  "StruktureradText",
  "SubclassingDictionaries",
  "SubmittingBugs",
  "SugarUi",
  "SymPy",
  "SyntaxReference",
  "TahoeMentors",
  "Talk Subjects",
  "TalkMistakes",
  "TcpCommunication",
  "TestOob",
  "TestSoftware",
  "Texas Pythoneers!",
  "TexasPythoneers",
  "TheCircle",
  "ThreadProgramming",
  "Tiny Python",
  "TkZinc",
  "TokyoPythonistas",
  "Topically Organized PEP List",
  "TracTracker",
  "TrouvePage",
  "TupleSyntax",
  "TypeError",
  "UbuntuInstall",
  "UdpCommunication",
  "UnicodeEncoding",
  "UsefulModules",
  "UserKit",
  "UsingEnumerate",
  "UsingSlots",
  "VenomPackage",
  "VersionControl",
  "VirtualPython",
  "VisualWx",
  "Voicent Simple Telephone Call API",
  "Volunteer Signup 2008",
  "Volunteer Signup",
  "VolunteerOpportunities",
  "WebAccessibility",
  "WebApplications",
  "WebComponents",
  "WebizingPython",
  "WebKit",
  "WebServers",
  "WebServices",
  "WebStack",
  "WebStandardisation",
  "WebWare",
  "WebwareSprint",
  "WegWeiser",
  "WikiGuidelines",
  "WikiSpam",
  "WikiUsers",
  "WxDesigner",
  "WxGlade",
  "XmlBooks",
  "XmlDatabases",
  "ZeroPrice",
  "ZodbSprint"
]

def JYTHON_NON_PERSON : List (String × String) := [
  ("SummerOfCode", "jython/community/")
]

/-! ## Person classification (`_looks_like_person`, `_is_non_person`,
and the per-stem decision of `classify_python_people`) -/

/-- `_looks_like_person(stem)`. -/
def looksLikePerson (s : String) : Bool :=
  if quotedMatch s.data then true
  else if camelMatch s.data then
    (if s ∈ NON_PERSON_CAMELCASE then false
     else if upperCount s.data = 2 then true
     else if 2 < upperCount s.data then
       decide (2 ≤ (camelParts s.data).length) &&
         (camelParts s.data).all (fun part => decide (2 ≤ part.length))
     else false)
  else if usernameMatch s.data && decide (s.length < 25) then true
  else if hasDot s.data &&
      !(leadsWith "Example".data s.data || leadsWith "PSF".data s.data) then true
  else false

/-- `_is_non_person(stem)`. -/
def isNonPerson (s : String) : Bool :=
  if s ∈ NON_PERSON_EXACT then true
  else if s ∈ NON_PERSON_CAMELCASE then true
  else false

/-- The classification tag attached to a `python/people/` stem. -/
inductive Classification where
  | person
  | non_person
deriving DecidableEq, Repr

/-- The per-stem decision of `classify_python_people`: known non-person
directory, then known non-person entry, then the heuristic. -/
def classifyKey (s : String) : Classification :=
  if s ∈ NON_PERSON_DIRS then .non_person
  else if isNonPerson s then .non_person
  else if looksLikePerson s then .person
  else .non_person

/-! ## Filesystem nodes and entry groups -/

/-- A filesystem entry under some `<wiki>/people/` directory.

`path` is the repo-relative path (the identity the script's `Path` equality
compares); `name` is the base name including any `.md` suffix; `isDir`
distinguishes containers from leaf documents; `size` is `_entry_size` of the
node (aggregate `.md` content size for a directory, own byte size for a
file); `docs` lists, for a directory, the paths of contained `.md` files
relative to the wiki's `people/` directory (what `p.rglob("*.md")` yields,
relativized) — empty for leaf files. -/
structure Node where
  path : String
  name : String
  isDir : Bool
  size : Nat
  docs : List String
deriving DecidableEq, Repr

/-- `resolve_dir_file_dupes(paths)`: the first directory if any, else the
first file; `none` models the `IndexError` on an empty group. -/
def resolveDirFileDupes (paths : List Node) : Option Node :=
  match paths.find? (fun p => p.isDir) with
  | some d => some d
  | none => paths.head?

/-- The strict "richer" comparison of `pick_richer`'s loop body: a directory
beats a file; otherwise strictly larger `_entry_size` wins. -/
def richer (a b : Node) : Bool :=
  (a.isDir && !b.isDir) || ((a.isDir == b.isDir) && decide (b.size < a.size))

/-- A per-namespace candidate for one stem: the wiki's name and the group of
nodes (file and/or directory) that wiki contributes. -/
abbrev Cand := String × List Node

/-- The fold of `pick_richer` over the remaining candidates, carrying the
current best `(wiki, node)`. -/
def pickGo (bw : String) (bp : Node) : List Cand → Option (String × Node)
  | [] => some (bw, bp)
  | (w, ps) :: rest =>
    match resolveDirFileDupes ps with
    | none => none
    | some p => if richer p bp then pickGo w p rest else pickGo bw bp rest

/-- `pick_richer(candidates)`; `none` models the `IndexError` on an empty
candidate list or an empty per-wiki group. -/
def pickRicher (cands : List Cand) : Option (String × Node) :=
  match cands with
  | [] => none
  | (w, ps) :: rest =>
    match resolveDirFileDupes ps with
    | none => none
    | some p => pickGo w p rest

/-! ## Redirect generation (the `redirects[...] = ...` assignments of
`main`'s planning loop, as lists of key/value pairs in insertion order) -/

/-- Python's `str.removesuffix(".md")` (expressed over the character list
so that it evaluates by kernel reduction). -/
def stripMd (s : String) : String :=
  if decide (3 ≤ s.data.length) &&
      leadsWith ".md".data (s.data.drop (s.data.length - 3)) then
    String.mk (s.data.take (s.data.length - 3))
  else s

/-- Redirects contributed by one path of a single-source stem
(`main`, step 4, single-candidate branch). -/
def singleRedirects (wiki stem : String) (p : Node) : List (String × String) :=
  if p.isDir then
    (wiki ++ "/people/" ++ stem ++ "/index", "people/" ++ stem ++ "/index") ::
    (wiki ++ "/people/" ++ stem, "people/" ++ stem) ::
    p.docs.map (fun rel =>
      (wiki ++ "/people/" ++ stripMd rel, "people/" ++ stripMd rel))
  else
    [(wiki ++ "/people/" ++ stem, "people/" ++ stem)]

/-- Redirects contributed by one path of a cross-wiki duplicate stem
(`main`, step 4, duplicate branch).  The code computes the index target as
`f"people/{stem}/index" if dst.is_dir() or winning_path.is_dir() else ...`;
at planning time `dst` does not exist yet, so `dst.is_dir()` is `False` and
only `winning_path.is_dir()` decides. -/
def dupeRedirects (wiki stem : String) (winIsDir : Bool) (p : Node) :
    List (String × String) :=
  if p.isDir then
    (wiki ++ "/people/" ++ stem ++ "/index",
      if winIsDir then "people/" ++ stem ++ "/index" else "people/" ++ stem) ::
    (wiki ++ "/people/" ++ stem, "people/" ++ stem) ::
    p.docs.map (fun rel =>
      (wiki ++ "/people/" ++ stripMd rel, "people/" ++ stripMd rel))
  else
    [(wiki ++ "/people/" ++ stem, "people/" ++ stem)]

/-- Redirects for one non-person path moved to `python/archive/`
(`main`, step 4, non-person loop). -/
def archiveRedirects (stem : String) (p : Node) : List (String × String) :=
  if p.isDir then
    ("python/people/" ++ stem ++ "/index", "python/archive/" ++ stem ++ "/index") ::
    ("python/people/" ++ stem, "python/archive/" ++ stem) ::
    p.docs.map (fun rel =>
      ("python/people/" ++ stripMd rel, "python/archive/" ++ stripMd rel))
  else
    [("python/people/" ++ stem, "python/archive/" ++ stem)]

/-- Redirects for one jython non-person path (no bare-path redirect is
added for directories in this branch of the code). -/
def jythonRedirects (stem target : String) (p : Node) : List (String × String) :=
  if p.isDir then
    ("jython/people/" ++ stem ++ "/index", target ++ stem ++ "/index") ::
    p.docs.map (fun rel =>
      ("jython/people/" ++ stripMd rel, stripMd (target ++ rel)))
  else
    [("jython/people/" ++ stem, target ++ stem)]

/-! ## The relocation plan (`main`, step 4) -/

/-- A scheduled move: source path and destination path. -/
abbrev Move := String × String

/-- Removals scheduled for the candidates of one cross-wiki duplicate stem:
a losing wiki loses all its nodes, the winning wiki loses its dir+file
counterparts of the winner. -/
def dupeRemoves (winPath : Node) : List Cand → Option (List String)
  | [] => some []
  | (_, ps) :: rest =>
    match resolveDirFileDupes ps with
    | none => none
    | some wl =>
      (dupeRemoves winPath rest).map (fun rs =>
        (if wl.path ≠ winPath.path then ps.map (fun p => p.path)
         else (ps.filter (fun p => p.path ≠ winPath.path)).map (fun p => p.path)) ++ rs)

/-- All redirects for a duplicate stem (all paths of all candidate wikis). -/
def dupeAllRedirects (stem : String) (winIsDir : Bool) (cands : List Cand) :
    List (String × String) :=
  match cands with
  | [] => []
  | (wiki, ps) :: rest =>
    (ps.flatMap (fun p => dupeRedirects wiki stem winIsDir p)) ++
      dupeAllRedirects stem winIsDir rest

/-- Moves, removals and redirects planned for one stem of the global person
map (`main`, step 4: the `for stem, candidates in all_people.items()` body). -/
def stemPlan (stem : String) (cands : List Cand) :
    Option (List Move × List String × List (String × String)) :=
  match cands with
  | [(wiki, ps)] =>
    (resolveDirFileDupes ps).map (fun winner =>
      ([(winner.path,
          if winner.isDir then "people/" ++ stem else "people/" ++ winner.name)],
       (ps.filter (fun p => p.path ≠ winner.path)).map (fun p => p.path),
       ps.flatMap (fun p => singleRedirects wiki stem p)))
  | _ :: _ :: _ =>
    match pickRicher cands with
    | none => none
    | some (_, winPath) =>
      (dupeRemoves winPath cands).map (fun rms =>
        ([(winPath.path,
            if winPath.isDir then "people/" ++ stem else "people/" ++ winPath.name)],
         rms,
         dupeAllRedirects stem winPath.isDir cands))
  | [] => none

/-- The person-merge part of the plan, over the whole global person map. -/
def plansFor : List (String × List Cand) →
    Option (List Move × List String × List (String × String))
  | [] => some ([], [], [])
  | (stem, cands) :: rest =>
    match stemPlan stem cands, plansFor rest with
    | some (m, r, d), some (ms, rs, ds) => some (m ++ ms, r ++ rs, d ++ ds)
    | _, _ => none

/-- Moves and redirects for the python non-person stems (`main`, step 4,
`for stem, paths in py_non_persons.items()`): every path is moved to
`python/archive/`, nothing is removed. -/
def nonPersonPlan : List (String × List Node) → List Move × List (String × String)
  | [] => ([], [])
  | (stem, ps) :: rest =>
    let (ms, ds) := nonPersonPlan rest
    (ps.map (fun p =>
        (p.path, if p.isDir then "python/archive/" ++ stem
                 else "python/archive/" ++ p.name)) ++ ms,
     ps.flatMap (fun p => archiveRedirects stem p) ++ ds)

/-- Association-list lookup (first matching key), mirroring a Python dict
lookup. -/
def dlookup (k : String) : List (String × String) → Option String
  | [] => none
  | (k', v) :: rest => if k' = k then some v else dlookup k rest

/-- Moves and redirects for the jython non-person stems; the per-stem target
comes from `JYTHON_NON_PERSON` (`none` models the `KeyError` on a stem
missing from it, which the filtering in step 2 makes unreachable). -/
def jythonPlan : List (String × List Node) → Option (List Move × List (String × String))
  | [] => some ([], [])
  | (stem, ps) :: rest =>
    match dlookup stem JYTHON_NON_PERSON with
    | none => none
    | some target =>
      (jythonPlan rest).map (fun md =>
        (ps.map (fun p =>
            (p.path, if p.isDir then target ++ stem else target ++ p.name)) ++ md.1,
         ps.flatMap (fun p => jythonRedirects stem target p) ++ md.2))

/-! ## Merging into the persisted `_redirects.json` (`main`, step 6) -/

/-- `existing[old] = new` on an insertion-ordered association list with
unique keys: update in place, or append. -/
def upsert (m : List (String × String)) (k v : String) : List (String × String) :=
  match m with
  | [] => [(k, v)]
  | (k', v') :: rest =>
    if k' = k then (k, v) :: rest else (k', v') :: upsert rest k v

/-- `for old, new in redirects.items(): existing[old] = new`. -/
def mergeStep1 (existing redirects : List (String × String)) :
    List (String × String) :=
  redirects.foldl (fun acc kv => upsert acc kv.1 kv.2) existing

/-- `for old, new in list(existing.items()): if new in redirects:
existing[old] = redirects[new]` — a pure map, since the loop iterates over a
snapshot and only consults the (unchanged) new-redirects dict. -/
def mergeStep2 (m redirects : List (String × String)) : List (String × String) :=
  m.map (fun kv =>
    match dlookup kv.2 redirects with
    | some w => (kv.1, w)
    | none => kv)

/-- The merged mapping before sorting. -/
def mergeRedirects (existing redirects : List (String × String)) :
    List (String × String) :=
  mergeStep2 (mergeStep1 existing redirects) redirects

/-- Byte-wise (code-point) string order used to model Python's sort of the
redirect items; keys are unique so ordering by key matches ordering by
`(key, value)`. -/
def charsLe : List Char → List Char → Bool
  | [], _ => true
  | _ :: _, [] => false
  | a :: as, b :: bs =>
    if a.toNat < b.toNat then true
    else if b.toNat < a.toNat then false
    else charsLe as bs

/-- Order on redirect entries: by key. -/
def entryLe (a b : String × String) : Bool := charsLe a.1.data b.1.data

/-- Insertion step of the model sort. -/
def insertPair (x : String × String) : List (String × String) → List (String × String)
  | [] => [x]
  | y :: ys => if entryLe x y then x :: y :: ys else y :: insertPair x ys

/-- `dict(sorted(existing.items()))`: the model insertion sort. -/
def sortPairs : List (String × String) → List (String × String)
  | [] => []
  | x :: xs => insertPair x (sortPairs xs)

/-- The mapping written back to `_redirects.json` at the end of a live run:
merge, chain-rewrite, sort. -/
def finalRedirects (existing redirects : List (String × String)) :
    List (String × String) :=
  sortPairs (mergeRedirects existing redirects)

/-! ## `main`: classification of the corpus, plan assembly, dry-run gate -/

/-- `classify_python_people()` over an already-collected entry map
(`collect_people_entries("python")` is the filesystem walk; its result is
the input here). -/
def classifyPythonPeople (entries : List (String × List Node)) :
    List (String × List Node) × List (String × List Node) :=
  match entries with
  | [] => ([], [])
  | (stem, ps) :: rest =>
    let (per, non) := classifyPythonPeople rest
    match classifyKey stem with
    | .person => ((stem, ps) :: per, non)
    | .non_person => (per, (stem, ps) :: non)

/-- `main`, step 2: split jython entries into people and known non-people. -/
def splitJython (entries : List (String × List Node)) :
    List (String × List Node) × List (String × List Node) :=
  (entries.filter (fun e => (dlookup e.1 JYTHON_NON_PERSON).isNone),
   entries.filter (fun e => (dlookup e.1 JYTHON_NON_PERSON).isSome))

/-- `all_people.setdefault(stem, []).append((wiki, paths))`. -/
def addCand (m : List (String × List Cand)) (stem : String) (c : Cand) :
    List (String × List Cand) :=
  match m with
  | [] => [(stem, [c])]
  | (s, cs) :: rest =>
    if s = stem then (s, cs ++ [c]) :: rest else (s, cs) :: addCand rest stem c

/-- `main`, step 3: the global person map, keyed by stem, aggregating the
python person stems, the psf entries and the jython person entries in that
order. -/
def buildAllPeople (py psf jy : List (String × List Node)) :
    List (String × List Cand) :=
  let m1 := py.foldl (fun m e => addCand m e.1 ("python", e.2)) []
  let m2 := psf.foldl (fun m e => addCand m e.1 ("psf", e.2)) m1
  jy.foldl (fun m e => addCand m e.1 ("jython", e.2)) m2

/-- One observable side effect of a live run.  Steps 7–9 (index generation
and index-file edits) are represented by payload-free markers; no claim
concerns their content. -/
inductive Effect where
  | move (src dst : String)
  | remove (src : String)
  | writeRedirects (m : List (String × String))
  | writePeopleIndex
  | editIndexFiles
deriving DecidableEq, Repr

/-- `main(dry_run)`, as the list of effects a run performs, given the
collected entry maps of the three wikis and the persisted redirect mapping.
`--dry-run` returns (after printing the plan) before steps 5–9, so a dry
run performs no effect.  In live mode the script attempts every planned
move and removal (skipping sources that are already gone), writes the
merged redirect mapping, regenerates `people/index.md` and edits the wiki
index files. -/
def mainRun (dryRun : Bool) (pyEntries psfEntries jyEntries : List (String × List Node))
    (existing : List (String × String)) : Option (List Effect) :=
  let pyTagged := classifyPythonPeople pyEntries
  let jySplit := splitJython jyEntries
  let allPeople := buildAllPeople pyTagged.1 psfEntries jySplit.1
  match plansFor allPeople with
  | none => none
  | some (mv, rm, reds1) =>
    let np := nonPersonPlan pyTagged.2
    match jythonPlan jySplit.2 with
    | none => none
    | some (jmv, jreds) =>
      let moves := mv ++ np.1 ++ jmv
      let redirects := reds1 ++ np.2 ++ jreds
      if dryRun then some []
      else
        some (moves.map (fun md => Effect.move md.1 md.2) ++
              rm.map Effect.remove ++
              [Effect.writeRedirects (finalRedirects existing redirects),
               Effect.writePeopleIndex, Effect.editIndexFiles])

/-! ## Derived vocabulary used by the statements -/

/-- The no-double-hop invariant claimed for the persisted mapping: no
entry's target is itself a key of the mapping pointing elsewhere. -/
def chainFree (m : List (String × String)) : Prop :=
  ∀ p ∈ m, ∀ q ∈ m, q.1 = p.2 → q.2 = p.2

instance (m : List (String × String)) : Decidable (chainFree m) := by
  unfold chainFree
  exact inferInstance

/-- All node paths contributed by a candidate list. -/
def candPaths : List Cand → List String
  | [] => []
  | c :: rest => c.2.map (fun p => p.path) ++ candPaths rest

/-- All node paths of a global person map. -/
def apPaths : List (String × List Cand) → List String
  | [] => []
  | (_, cands) :: rest => candPaths cands ++ apPaths rest

/-- All node paths of a stem-keyed entry map. -/
def entryPaths : List (String × List Node) → List String
  | [] => []
  | (_, ps) :: rest => ps.map (fun p => p.path) ++ entryPaths rest

/-- Modelled from the spec: the "strict two-or-more-capitalized-word
camel-case shape" as the spec's words describe it — the key decomposes
entirely into two or more capitalized words `[A-Z][a-z]+`.  (The script's
actual `_CAMELCASE_PERSON` regex allows exactly two such words; this
definition exists to state the spec's claim, to be compared against the
code's behaviour.) -/
def specCamelWordsF : Nat → List Char → Option Nat
  | _, [] => some 0
  | 0, _ :: _ => none
  | _ + 1, [_] => none
  | fuel + 1, c :: c2 :: rest =>
    if isUpperA c && isLowerA c2 then
      (specCamelWordsF fuel (List.dropWhile isLowerA rest)).map (fun n => n + 1)
    else none

def specCamelWords (l : List Char) : Option Nat := specCamelWordsF l.length l

/-- Modelled from the spec: a key matches the spec's camel-case shape when
it is a concatenation of at least two capitalized words. -/
def specCamelShape (l : List Char) : Bool :=
  match specCamelWords l with
  | some n => decide (2 ≤ n)
  | none => false

/-! ## Shared lemmas: sorting, lookup, merge -/

theorem insertPair_perm (x : String × String) (l : List (String × String)) :
    List.Perm (insertPair x l) (x :: l) := by
  induction l with
  | nil => simp [insertPair]
  | cons y ys ih =>
    simp only [insertPair]
    by_cases h : entryLe x y = true
    · simp [h]
    · simp only [h, if_neg]
      exact (List.Perm.cons y ih).trans (List.Perm.swap x y ys)

theorem sortPairs_perm (l : List (String × String)) :
    List.Perm (sortPairs l) l := by
  induction l with
  | nil => simp [sortPairs]
  | cons x xs ih =>
    exact (insertPair_perm x (sortPairs xs)).trans (List.Perm.cons x ih)

theorem mem_sortPairs {p : String × String} {l : List (String × String)} :
    p ∈ sortPairs l ↔ p ∈ l :=
  (sortPairs_perm l).mem_iff

theorem dlookup_mem {k v : String} :
    ∀ {l : List (String × String)}, dlookup k l = some v → (k, v) ∈ l := by
  intro l
  induction l with
  | nil => intro h; simp [dlookup] at h
  | cons kv rest ih =>
    obtain ⟨k', v'⟩ := kv
    intro h
    simp only [dlookup] at h
    by_cases hk : k' = k
    · simp only [hk, if_pos rfl] at h
      cases h
      subst hk
      exact List.mem_cons_self _ _
    · simp only [if_neg hk] at h
      exact List.mem_cons_of_mem _ (ih h)

theorem dlookup_none {k : String} :
    ∀ {l : List (String × String)}, dlookup k l = none ↔ ∀ kv ∈ l, kv.1 ≠ k := by
  intro l
  induction l with
  | nil => simp [dlookup]
  | cons kv rest ih =>
    obtain ⟨k', v'⟩ := kv
    constructor
    · intro h p hp
      simp only [dlookup] at h
      by_cases hk : k' = k
      · simp [hk] at h
      · simp only [if_neg hk] at h
        rcases List.mem_cons.mp hp with h1 | h1
        · subst h1; exact hk
        · exact ih.mp h p h1
    · intro h
      simp only [dlookup]
      have hk : k' ≠ k := h (k', v') (List.mem_cons_self _ _)
      simp only [if_neg hk]
      exact ih.mpr (fun p hp => h p (List.mem_cons_of_mem _ hp))

theorem dlookup_cons (a b k : String) (rest : List (String × String)) :
    dlookup k ((a, b) :: rest) = if a = k then some b else dlookup k rest := rfl

theorem mergeStep2_cons (a b : String) (rest redirects : List (String × String)) :
    mergeStep2 ((a, b) :: rest) redirects =
      (match dlookup b redirects with
       | some w => (a, w)
       | none => (a, b)) :: mergeStep2 rest redirects := by
  simp [mergeStep2]

theorem dlookup_upsert_ne {k k' v' : String} (h : k' ≠ k) :
    ∀ (m : List (String × String)), dlookup k (upsert m k' v') = dlookup k m := by
  intro m
  induction m with
  | nil => simp [upsert, dlookup, h]
  | cons kv rest ih =>
    obtain ⟨a, b⟩ := kv
    simp only [upsert]
    by_cases ha : a = k'
    · subst ha
      simp [dlookup_cons, if_neg h]
    · simp only [if_neg ha, dlookup_cons]
      by_cases hak : a = k
      · simp [hak]
      · simp only [if_neg hak]
        exact ih

theorem dlookup_mergeStep1_of_not_source {k : String}
    {redirects : List (String × String)} (hk : dlookup k redirects = none) :
    ∀ (existing : List (String × String)),
      dlookup k (mergeStep1 existing redirects) = dlookup k existing := by
  have hne : ∀ kv ∈ redirects, kv.1 ≠ k := dlookup_none.mp hk
  clear hk
  induction redirects with
  | nil => intro ex; rfl
  | cons kv rest ih =>
    intro ex
    simp only [mergeStep1, List.foldl_cons]
    have h1 : dlookup k (upsert ex kv.1 kv.2) = dlookup k ex :=
      dlookup_upsert_ne (hne kv (List.mem_cons_self _ _)) ex
    have := ih (fun p hp => hne p (List.mem_cons_of_mem _ hp)) (upsert ex kv.1 kv.2)
    simp only [mergeStep1] at this
    rw [this, h1]

theorem dlookup_mergeStep2 {k v : String} {redirects : List (String × String)}
    (hv : dlookup v redirects = none) :
    ∀ {m : List (String × String)}, dlookup k m = some v →
      dlookup k (mergeStep2 m redirects) = some v := by
  intro m
  induction m with
  | nil => intro h; simp [dlookup] at h
  | cons kv rest ih =>
    obtain ⟨a, b⟩ := kv
    intro h
    rw [dlookup_cons] at h
    rw [mergeStep2_cons]
    by_cases ha : a = k
    · rw [if_pos ha] at h
      injection h with hb
      subst hb
      rw [hv]
      simp [dlookup_cons, ha]
    · rw [if_neg ha] at h
      cases hl : dlookup b redirects with
      | none => simpa [dlookup_cons, ha] using ih h
      | some w => simpa [dlookup_cons, ha] using ih h

theorem upsert_keys (k v : String) :
    ∀ (m : List (String × String)),
      (upsert m k v).map Prod.fst =
        if k ∈ m.map Prod.fst then m.map Prod.fst else m.map Prod.fst ++ [k] := by
  intro m
  induction m with
  | nil => simp [upsert]
  | cons kv rest ih =>
    obtain ⟨a, b⟩ := kv
    simp only [upsert]
    by_cases ha : a = k
    · subst ha
      simp
    · have hka : ¬ k = a := fun h => ha h.symm
      simp only [if_neg ha, List.map_cons, ih, List.mem_cons, hka, false_or]
      by_cases hk : k ∈ rest.map Prod.fst
      · simp [hk]
      · simp [hk]

theorem upsert_keys_nodup {k v : String} {m : List (String × String)}
    (h : (m.map Prod.fst).Nodup) : ((upsert m k v).map Prod.fst).Nodup := by
  rw [upsert_keys]
  by_cases hk : k ∈ m.map Prod.fst
  · simpa [hk] using h
  · simp only [if_neg hk]
    rw [List.nodup_append]
    refine ⟨h, List.nodup_singleton k, ?_⟩
    intro a ha hb
    rw [List.mem_singleton] at hb
    subst hb
    exact hk ha

theorem mergeStep1_keys_nodup {existing : List (String × String)}
    (h : (existing.map Prod.fst).Nodup) (redirects : List (String × String)) :
    ((mergeStep1 existing redirects).map Prod.fst).Nodup := by
  induction redirects generalizing existing with
  | nil => exact h
  | cons kv rest ih =>
    simp only [mergeStep1, List.foldl_cons]
    exact ih (upsert_keys_nodup h)

theorem mergeStep2_keys (m redirects : List (String × String)) :
    (mergeStep2 m redirects).map Prod.fst = m.map Prod.fst := by
  induction m with
  | nil => rfl
  | cons kv rest ih =>
    obtain ⟨a, b⟩ := kv
    rw [mergeStep2_cons]
    cases dlookup b redirects with
    | none => simpa using ih
    | some w => simpa using ih

theorem dlookup_of_perm {l₁ l₂ : List (String × String)}
    (h : List.Perm l₁ l₂) (hnd : (l₁.map Prod.fst).Nodup) (k : String) :
    dlookup k l₁ = dlookup k l₂ := by
  induction h with
  | nil => rfl
  | cons x h ih =>
    obtain ⟨a, b⟩ := x
    simp only [List.map_cons, List.nodup_cons] at hnd
    simp only [dlookup_cons]
    by_cases ha : a = k
    · simp [ha]
    · simp only [if_neg ha]
      exact ih hnd.2
  | swap x y l =>
    obtain ⟨a, b⟩ := y
    obtain ⟨c, d⟩ := x
    simp only [List.map_cons, List.nodup_cons, List.mem_cons] at hnd
    have hac : a ≠ c := fun h => hnd.1 (Or.inl h)
    simp only [dlookup_cons]
    by_cases ha : a = k
    · subst ha
      rw [if_pos rfl, if_neg (fun h : c = a => hac h.symm), if_pos rfl]
    · by_cases hc : c = k
      · rw [if_neg ha, if_pos hc, if_pos hc]
      · rw [if_neg ha, if_neg hc, if_neg hc, if_neg ha]
  | trans h₁ h₂ ih₁ ih₂ =>
    have hp := List.Perm.map Prod.fst h₁
    have hnd₂ := hp.nodup_iff.mp hnd
    rw [ih₁ hnd, ih₂ hnd₂]

theorem mergeRedirects_keys_nodup {existing : List (String × String)}
    (h : (existing.map Prod.fst).Nodup) (redirects : List (String × String)) :
    ((mergeRedirects existing redirects).map Prod.fst).Nodup := by
  rw [mergeRedirects, mergeStep2_keys]
  exact mergeStep1_keys_nodup h redirects

/-! ## C1 — no redirect chains in the persisted mapping -/

/-- **C1** (counterexample).  The claim "no redirect chain of length > 1
survives in the written file" fails on the code: a live run that moves
`python/people/JohnSmith.md` writes the generated redirect
`python/people/JohnSmith -> people/JohnSmith` next to a pre-existing entry
whose key `people/JohnSmith` is the new redirect's target, and the chain
`python/people/JohnSmith -> people/JohnSmith -> python/old/JohnSmith`
survives: the code only rewrites existing entries whose *target* is a *new*
redirect source, never entries pointing at a *pre-existing* source. -/
theorem c1_redirect_chain_counterexample :
    mainRun false
        [("JohnSmith", [Node.mk "python/people/JohnSmith.md" "JohnSmith.md" false 10 []])]
        [] [] [("people/JohnSmith", "python/old/JohnSmith")] =
      some [Effect.move "python/people/JohnSmith.md" "people/JohnSmith.md",
            Effect.writeRedirects [("people/JohnSmith", "python/old/JohnSmith"),
                                   ("python/people/JohnSmith", "people/JohnSmith")],
            Effect.writePeopleIndex, Effect.editIndexFiles] ∧
    ¬ chainFree [("people/JohnSmith", "python/old/JohnSmith"),
                 ("python/people/JohnSmith", "people/JohnSmith")] := by
  constructor
  · decide
  · decide

/-- **C1** (amended).  What the merge loop does guarantee: provided no
target of the newly generated redirect set is itself a key of that set
(true of the paths the script generates, whose sources all live under
`<wiki>/people/` and whose targets never do), then no entry of the
persisted mapping points at a newly generated redirect source — every
existing entry whose target just became a redirect source has been
rewritten to that redirect's destination.  Chains through *pre-existing*
sources are not resolved (see the counterexample). -/
theorem c1_no_entry_targets_new_source (existing redirects : List (String × String))
    (hgen : ∀ kv ∈ redirects, dlookup kv.2 redirects = none) :
    ∀ p ∈ finalRedirects existing redirects, dlookup p.2 redirects = none := by
  intro p hp
  rw [finalRedirects] at hp
  have hp' : p ∈ mergeRedirects existing redirects := mem_sortPairs.mp hp
  rw [mergeRedirects, mergeStep2] at hp'
  obtain ⟨kv, hkv, heq⟩ := List.mem_map.mp hp'
  cases hl : dlookup kv.2 redirects with
  | some w =>
    rw [hl] at heq
    have hw : (kv.2, w) ∈ redirects := dlookup_mem hl
    have := hgen (kv.2, w) hw
    rw [← heq]
    exact this
  | none =>
    rw [hl] at heq
    rw [← heq]
    exact hl

/-- Witness for C1 (amended) at a concrete merge. -/
theorem c1_no_entry_targets_new_source_witness :
    dlookup "people/JohnSmith" [("python/people/JohnSmith", "people/JohnSmith")] = none :=
  c1_no_entry_targets_new_source
    [("people/JohnSmith", "python/old/JohnSmith")]
    [("python/people/JohnSmith", "people/JohnSmith")]
    (by decide)
    ("python/people/JohnSmith", "people/JohnSmith")
    (by decide)

/-! ## C2 — preservation of pre-existing entries in the merge -/

/-- **C2** (counterexample).  The claim "a newly discovered redirect never
overwrites an existing entry for the same old path" fails on the code: the
merge loop runs `existing[old] = new` unconditionally, so a key present in
both mappings takes the new value even when the existing value is not a new
redirect source.  Here the pre-existing entry
`python/people/JohnSmith -> python/archive/JohnSmith` (whose target is not
a new redirect source) is overwritten with `people/JohnSmith`. -/
theorem c2_overwrite_counterexample :
    dlookup "python/people/JohnSmith"
        [("python/people/JohnSmith", "python/archive/JohnSmith")] =
      some "python/archive/JohnSmith" ∧
    (dlookup "python/people/JohnSmith"
        [("python/people/JohnSmith", "people/JohnSmith")]).isSome = true ∧
    dlookup "python/archive/JohnSmith"
        [("python/people/JohnSmith", "people/JohnSmith")] = none ∧
    dlookup "python/people/JohnSmith"
        (finalRedirects [("python/people/JohnSmith", "python/archive/JohnSmith")]
          [("python/people/JohnSmith", "people/JohnSmith")]) =
      some "people/JohnSmith" ∧
    some "people/JohnSmith" ≠ some "python/archive/JohnSmith" := by decide

/-- **C2** (amended).  What the merge does preserve: an existing entry whose
*key* is not a newly generated redirect source and whose *target* is not a
newly generated redirect source survives the merge verbatim.  (Keys that
are new redirect sources take the new value; entries whose target is a new
source are chain-rewritten.) -/
theorem c2_preserved_when_not_source (existing redirects : List (String × String))
    (hnd : (existing.map Prod.fst).Nodup) (k v : String)
    (hk : dlookup k existing = some v)
    (hks : dlookup k redirects = none)
    (hvs : dlookup v redirects = none) :
    dlookup k (finalRedirects existing redirects) = some v := by
  have h1 : dlookup k (mergeStep1 existing redirects) = some v := by
    rw [dlookup_mergeStep1_of_not_source hks existing, hk]
  have h2 : dlookup k (mergeRedirects existing redirects) = some v :=
    dlookup_mergeStep2 hvs h1
  have hnd2 := mergeRedirects_keys_nodup hnd redirects
  have hperm := sortPairs_perm (mergeRedirects existing redirects)
  have hndSorted :
      ((sortPairs (mergeRedirects existing redirects)).map Prod.fst).Nodup :=
    (List.Perm.map Prod.fst hperm).nodup_iff.mpr hnd2
  rw [finalRedirects, dlookup_of_perm hperm hndSorted k]
  exact h2

/-- Witness for C2 (amended) at a concrete merge. -/
theorem c2_preserved_when_not_source_witness :
    dlookup "python/people/Old"
        (finalRedirects [("python/people/Old", "python/archive/Old")]
          [("python/people/JohnSmith", "people/JohnSmith")]) =
      some "python/archive/Old" :=
  c2_preserved_when_not_source
    [("python/people/Old", "python/archive/Old")]
    [("python/people/JohnSmith", "people/JohnSmith")]
    (by decide) "python/people/Old" "python/archive/Old"
    (by decide) (by decide) (by decide)

/-! ## Shared lemmas: character classes and the camel-case shape -/

theorem lower_not_upper {c : Char} (h : isLowerA c = true) : isUpperA c = false := by
  simp only [isLowerA, Bool.and_eq_true, decide_eq_true_eq] at h
  simp only [isUpperA, Bool.and_eq_false_iff, decide_eq_false_iff_not]
  omega

theorem upper_not_lower {c : Char} (h : isUpperA c = true) : isLowerA c = false := by
  simp only [isUpperA, Bool.and_eq_true, decide_eq_true_eq] at h
  simp only [isLowerA, Bool.and_eq_false_iff, decide_eq_false_iff_not]
  omega

theorem dropWhile_all_append {p : Char → Bool} :
    ∀ {a : List Char} {b : Char} {c : List Char},
      (∀ x ∈ a, p x = true) → p b = false →
      List.dropWhile p (a ++ b :: c) = b :: c := by
  intro a
  induction a with
  | nil =>
    intro b c _ hb
    simp [List.dropWhile, hb]
  | cons x xs ih =>
    intro b c ha hb
    have hx : p x = true := ha x (List.mem_cons_self _ _)
    simp only [List.cons_append, List.dropWhile_cons_of_pos hx]
    exact ih (fun y hy => ha y (List.mem_cons_of_mem _ hy)) hb

/-- The structure forced by a `_CAMELCASE_PERSON` match: an upper letter, a
nonempty lowercase block, an upper letter, a nonempty lowercase block, and
at most one trailing newline. -/
theorem camelMatch_decomp {l : List Char} (h : camelMatch l = true) :
    ∃ c1 l1 c2 l2 t, l = c1 :: (l1 ++ c2 :: (l2 ++ t)) ∧
      isUpperA c1 = true ∧ (∀ x ∈ l1, isLowerA x = true) ∧ l1 ≠ [] ∧
      isUpperA c2 = true ∧ (∀ x ∈ l2, isLowerA x = true) ∧ l2 ≠ [] ∧
      (t = [] ∨ ∃ cn, t = [cn] ∧ cn.toNat = 10) := by
  rcases l with _ | ⟨c1, rest1⟩
  · exact absurd h (by simp [camelMatch])
  rcases rest1 with _ | ⟨cA, rest2⟩
  · exact absurd h (by simp [camelMatch])
  simp only [camelMatch, Bool.and_eq_true] at h
  obtain ⟨h1, hA, h⟩ := h
  rcases hdw : List.dropWhile isLowerA rest2 with _ | ⟨c3, rest3⟩
  · rw [hdw] at h
    simp at h
  rw [hdw] at h
  simp only [Bool.and_eq_true] at h
  obtain ⟨h3, h⟩ := h
  rcases rest3 with _ | ⟨c4, rest4⟩
  · simp at h
  simp only [Bool.and_eq_true] at h
  obtain ⟨h4, hend⟩ := h
  refine ⟨c1, cA :: List.takeWhile isLowerA rest2, c3,
    c4 :: List.takeWhile isLowerA rest4,
    List.dropWhile isLowerA rest4, ?_, h1, ?_, by simp, h3, ?_, by simp, ?_⟩
  · have e2 : rest2 = List.takeWhile isLowerA rest2 ++ c3 :: c4 :: rest4 := by
      conv_lhs => rw [← List.takeWhile_append_dropWhile (p := isLowerA) (l := rest2)]
      rw [hdw]
    have e4 : rest4 =
        List.takeWhile isLowerA rest4 ++ List.dropWhile isLowerA rest4 :=
      (List.takeWhile_append_dropWhile (p := isLowerA) (l := rest4)).symm
    simp only [List.cons_append, List.append_assoc]
    rw [← e4]
    exact congrArg (c1 :: ·) (congrArg (cA :: ·) e2)
  · intro x hx
    rcases List.mem_cons.mp hx with h' | h'
    · subst h'; exact hA
    · exact List.mem_takeWhile_imp h'
  · intro x hx
    rcases List.mem_cons.mp hx with h' | h'
    · subst h'; exact h4
    · exact List.mem_takeWhile_imp h'
  · rcases hda : List.dropWhile isLowerA rest4 with _ | ⟨cn, tl⟩
    · exact Or.inl rfl
    · rw [hda] at hend
      rcases tl with _ | ⟨x, xs⟩
      · simp only [endAnchor, decide_eq_true_eq] at hend
        exact Or.inr ⟨cn, rfl, hend⟩
      · simp [endAnchor] at hend

theorem camel_upperCount {l : List Char} (h : camelMatch l = true) :
    upperCount l = 2 := by
  obtain ⟨c1, l1, c2, l2, t, he, h1, hl1, -, h2, hl2, -, ht⟩ := camelMatch_decomp h
  subst he
  have f1 : l1.filter isUpperA = [] :=
    List.filter_eq_nil_iff.mpr (fun x hx => by simp [lower_not_upper (hl1 x hx)])
  have f2 : l2.filter isUpperA = [] :=
    List.filter_eq_nil_iff.mpr (fun x hx => by simp [lower_not_upper (hl2 x hx)])
  have f3 : t.filter isUpperA = [] := by
    rcases ht with h' | ⟨cn, h', hcn⟩
    · simp [h']
    · subst h'
      have : isUpperA cn = false := by
        simp only [isUpperA, Bool.and_eq_false_iff, decide_eq_false_iff_not]
        omega
      simp [List.filter, this]
  simp [upperCount, List.filter_append, List.filter_cons, h1, h2, f1, f2, f3]

theorem particleChomp_not_sep {c : Char} (h45 : ¬ c.toNat = 45) (h39 : ¬ c.toNat = 39)
    (r : List Char) : particleChomp (c :: r) = c :: r := by
  cases r with
  | nil => rfl
  | cons c2 rest =>
    simp [particleChomp, particleChompF, h45, h39]

theorem quotedMatch_eq_false_of_camel {l : List Char} (h : camelMatch l = true) :
    quotedMatch l = false := by
  obtain ⟨c1, l1, c2, l2, t, he, h1, hl1, hne1, h2, hl2, -, -⟩ := camelMatch_decomp h
  subst he
  match l1, hne1 with
  | cA :: l1', _ =>
    have hA : isLowerA cA = true := hl1 cA (List.mem_cons_self _ _)
    simp only [quotedMatch, List.cons_append]
    have hdw : List.dropWhile isLowerA (l1' ++ c2 :: (l2 ++ t)) = c2 :: (l2 ++ t) :=
      dropWhile_all_append (fun x hx => hl1 x (List.mem_cons_of_mem _ hx))
        (upper_not_lower h2)
    rw [hdw]
    have hup : 65 ≤ c2.toNat ∧ c2.toNat ≤ 90 := by
      simpa [isUpperA, Bool.and_eq_true, decide_eq_true_eq] using h2
    rw [particleChomp_not_sep (by omega) (by omega)]
    have h32 : decide (c2.toNat = 32) = false := by
      simp only [decide_eq_false_iff_not]
      omega
    simp [h32, hA]

/-! ## C4 — the camel-case classification rule -/

/-- **C4** (counterexample).  Read with the spec's own description of the
shape ("strict two-or-MORE-capitalized-word camel-case"), the claim fails
on the code: `"JohnVanSmith"` decomposes into two-or-more capitalized words
(three, each of length ≥ 2), has more than two capitals and is in no
exclusion set — the claim classifies it `person` — but the script's
`_CAMELCASE_PERSON` regex `^[A-Z][a-z]+[A-Z][a-z]+$` cannot match a string
with more than two capitals, so the more-than-two-capitals branch of
`_looks_like_person` is unreachable and `"JohnVanSmith"` is classified
`non_person`. -/
theorem c4_camel_counterexample :
    specCamelShape "JohnVanSmith".data = true ∧
    "JohnVanSmith" ∉ NON_PERSON_CAMELCASE ∧
    2 < upperCount "JohnVanSmith".data ∧
    2 ≤ (camelParts "JohnVanSmith".data).length ∧
    (∀ part ∈ camelParts "JohnVanSmith".data, 2 ≤ part.length) ∧
    camelMatch "JohnVanSmith".data = false ∧
    looksLikePerson "JohnVanSmith" = false ∧
    classifyKey "JohnVanSmith" = .non_person := by decide

/-- **C4** (amended).  What holds of the code: every key matching the
actual camel-case regex has *exactly two* embedded capitals (the
more-than-two-capitals branch is dead code), and every matching key outside
the camel-case exclusion set is classified person. -/
theorem c4_camel_person_rule (s : String) (h : camelMatch s.data = true)
    (hx : s ∉ NON_PERSON_CAMELCASE) :
    upperCount s.data = 2 ∧ looksLikePerson s = true := by
  have hcaps := camel_upperCount h
  refine ⟨hcaps, ?_⟩
  rw [looksLikePerson, quotedMatch_eq_false_of_camel h]
  simp [h, hx, hcaps]

/-- Witness for C4 (amended) at `"JohnSmith"`. -/
theorem c4_camel_person_rule_witness :
    upperCount "JohnSmith".data = 2 ∧ looksLikePerson "JohnSmith" = true :=
  c4_camel_person_rule "JohnSmith" (by decide) (by decide)

/-! ## C5 — exclusion sets take precedence -/

/-- **C5**.  A key in the exact-exclusion set or the camel-case exclusion
set is always classified `non_person`: both memberships are checked (via
`_is_non_person`) before any structural person heuristic runs, so shape
does not matter. -/
theorem c5_exclusion_precedence (s : String)
    (h : s ∈ NON_PERSON_EXACT ∨ s ∈ NON_PERSON_CAMELCASE) :
    classifyKey s = .non_person := by
  rw [classifyKey]
  by_cases hd : s ∈ NON_PERSON_DIRS
  · simp [hd]
  · have hnp : isNonPerson s = true := by
      rw [isNonPerson]
      rcases h with h | h
      · simp [h]
      · by_cases he : s ∈ NON_PERSON_EXACT <;> simp [he, h]
    simp [hd, hnp]

/-- Witness for C5 at `"PyGame"` (camel-case exclusion set member that
matches the camel-case person shape). -/
theorem c5_exclusion_precedence_witness :
    camelMatch "PyGame".data = true ∧ classifyKey "PyGame" = .non_person :=
  ⟨by decide, c5_exclusion_precedence "PyGame" (Or.inr (by decide))⟩

/-! ## C9 — the prefix exclusion list is never consulted -/

/-- **C9** (counterexample).  The claim that classification applies the
prefix exclusion list fails on the code: `_NON_PERSON_PREFIXES` is defined
but never referenced by `_is_non_person`, `classify_python_people` or
anything else.  `"GuidoRossum"` begins with the listed prefix `"Guido"`
and matches the camel-case person shape, and is classified `person`, not
`non_person`. -/
theorem c9_prefix_list_counterexample :
    "Guido" ∈ NON_PERSON_PREFIXES_LIST ∧
    leadsWith "Guido".data "GuidoRossum".data = true ∧
    classifyKey "GuidoRossum" = .person := by decide

/-- **C9** (amended).  Classification is decided solely by the directory
set, the exact and camel-case exclusion sets and the structural heuristics:
a key beginning with a listed prefix but in no exclusion set and matching
the camel-case person shape is classified `person` — the prefix list is
dead data. -/
theorem c9_prefix_list_unused (s : String)
    (hpre : ∃ p ∈ NON_PERSON_PREFIXES_LIST, leadsWith p.data s.data = true)
    (hd : s ∉ NON_PERSON_DIRS) (he : s ∉ NON_PERSON_EXACT)
    (hc : s ∉ NON_PERSON_CAMELCASE) (hm : camelMatch s.data = true) :
    classifyKey s = .person := by
  have hcaps := camel_upperCount hm
  rw [classifyKey, isNonPerson]
  have hl : looksLikePerson s = true := by
    rw [looksLikePerson, quotedMatch_eq_false_of_camel hm]
    simp [hm, hc, hcaps]
  simp [hd, he, hc, hl]

/-- Witness for C9 (amended) at `"GuidoRossum"`. -/
theorem c9_prefix_list_unused_witness : classifyKey "GuidoRossum" = .person :=
  c9_prefix_list_unused "GuidoRossum" ⟨"Guido", by decide, by decide⟩
    (by decide) (by decide) (by decide) (by decide)

/-! ## C10 — single-letter lowercase keys -/

/-- No string of length 1 belongs to a list whose members all have length
at least 2. -/
theorem not_mem_of_short {s : String} {L : List String}
    (hL : ∀ x ∈ L, 2 ≤ x.length) (hs : s.length = 1) : s ∉ L := by
  intro hm
  have := hL s hm
  omega

set_option maxRecDepth 8000 in
/-- **C10**.  A key that is a single ASCII lowercase letter is classified
`non_person`: it is in no exclusion set (all members have length ≥ 2), the
quoted-name and camel-case shapes need an initial capital, the
lowercase-username shape needs at least two characters, and a lowercase
letter is not a period. -/
theorem c10_single_lowercase_non_person (c : Char)
    (h1 : 97 ≤ c.toNat) (h2 : c.toNat ≤ 122) :
    classifyKey (String.mk [c]) = .non_person := by
  have hlen : (String.mk [c]).length = 1 := rfl
  have hd : String.mk [c] ∉ NON_PERSON_DIRS :=
    not_mem_of_short (by decide) hlen
  have he : String.mk [c] ∉ NON_PERSON_EXACT :=
    not_mem_of_short (by decide) hlen
  have hc : String.mk [c] ∉ NON_PERSON_CAMELCASE :=
    not_mem_of_short (by decide) hlen
  have hdata : (String.mk [c]).data = [c] := rfl
  have hupper : isUpperA c = false := by
    simp only [isUpperA, Bool.and_eq_false_iff, decide_eq_false_iff_not]
    omega
  have hq : quotedMatch [c] = false := by simp [quotedMatch, hupper]
  have hcm : camelMatch [c] = false := by simp [camelMatch, hupper]
  have hu : usernameMatch [c] = false := by simp [usernameMatch]
  have hdot : hasDot [c] = false := by
    simp only [hasDot, List.any_cons, List.any_nil, Bool.or_false,
      decide_eq_false_iff_not]
    omega
  have hl : looksLikePerson (String.mk [c]) = false := by
    rw [looksLikePerson, hdata, hq, hcm, hu, hdot]
    simp
  rw [classifyKey, isNonPerson]
  simp [hd, he, hc, hl]

/-- Witness for C10 at `'a'`. -/
theorem c10_single_lowercase_non_person_witness :
    classifyKey (String.mk [Char.ofNat 97]) = .non_person :=
  c10_single_lowercase_non_person (Char.ofNat 97) (by decide) (by decide)

/-! ## C7 — dir+file duplicate resolution -/

/-- **C7**.  Whenever a group holds both a leaf and a container,
`resolve_dir_file_dupes` returns a container of the group — never the
leaf — regardless of either node's size; moreover if the container is
unique it is exactly the one returned. -/
theorem c7_resolve_dir_wins (g : List Node) (d f : Node)
    (hd : d ∈ g) (hdd : d.isDir = true) (hf : f ∈ g) (hff : f.isDir = false) :
    ∃ w, resolveDirFileDupes g = some w ∧ w ∈ g ∧ w.isDir = true ∧
      ((∀ x ∈ g, x.isDir = true → x = d) → w = d) := by
  rcases hfind : g.find? (fun p => p.isDir) with _ | w
  · rw [List.find?_eq_none] at hfind
    exact absurd hdd (by simpa using hfind d hd)
  · have hwdir : w.isDir = true := by simpa using List.find?_some hfind
    have hwmem : w ∈ g := List.mem_of_find?_eq_some hfind
    refine ⟨w, ?_, hwmem, hwdir, fun huniq => huniq w hwmem hwdir⟩
    rw [resolveDirFileDupes, hfind]

/-- Witness for C7: a group holding a 100-byte file and a 5-byte directory
resolves to the directory. -/
theorem c7_resolve_dir_wins_witness :
    resolveDirFileDupes
        [Node.mk "python/people/X.md" "X.md" false 100 [],
         Node.mk "python/people/X" "X" true 5 ["X/index.md"]] =
      some (Node.mk "python/people/X" "X" true 5 ["X/index.md"]) := by
  obtain ⟨w, hw, hmem, hdir, huniq⟩ :=
    c7_resolve_dir_wins
      [Node.mk "python/people/X.md" "X.md" false 100 [],
       Node.mk "python/people/X" "X" true 5 ["X/index.md"]]
      (Node.mk "python/people/X" "X" true 5 ["X/index.md"])
      (Node.mk "python/people/X.md" "X.md" false 100 [])
      (by decide) (by decide) (by decide) (by decide)
  rw [hw, huniq (by decide)]

/-! ## Shared lemmas: the `pick_richer` total order -/

theorem richer_trans {a b c : Node} (h1 : richer a b = true) (h2 : richer b c = true) :
    richer a c = true := by
  simp only [richer, Bool.or_eq_true, Bool.and_eq_true, Bool.not_eq_true',
    beq_iff_eq, decide_eq_true_eq] at *
  cases ha : a.isDir <;> cases hb : b.isDir <;> cases hc : c.isDir <;>
    simp_all <;> omega

theorem richer_step {a b c : Node} (h1 : richer a b = true) (h2 : richer c b = false) :
    richer a c = true := by
  simp only [richer, Bool.or_eq_true, Bool.and_eq_true, Bool.not_eq_true',
    beq_iff_eq, decide_eq_true_eq, Bool.or_eq_false_iff, Bool.and_eq_false_iff,
    decide_eq_false_iff_not] at *
  cases ha : a.isDir <;> cases hb : b.isDir <;> cases hc : c.isDir <;>
    simp_all <;> omega

/-- Full characterization of the best-so-far fold of `pick_richer`: the
result either is the initial best and nothing strictly beats it, or comes
from the list, strictly beats the initial best and everything before it,
and is not strictly beaten by anything after it. -/
theorem pickGo_spec :
    ∀ (xs : List Cand) (bw : String) (bp : Node) (w : String) (p : Node),
      pickGo bw bp xs = some (w, p) →
      ((w, p) = (bw, bp) ∧
        (∀ c ∈ xs, ∀ q, resolveDirFileDupes c.2 = some q → richer q bp = false)) ∨
      (∃ l₁ ps l₂, xs = l₁ ++ (w, ps) :: l₂ ∧ resolveDirFileDupes ps = some p ∧
        richer p bp = true ∧
        (∀ c ∈ l₁, ∀ q, resolveDirFileDupes c.2 = some q → richer p q = true) ∧
        (∀ c ∈ l₂, ∀ q, resolveDirFileDupes c.2 = some q → richer q p = false)) := by
  intro xs
  induction xs with
  | nil =>
    intro bw bp w p h
    simp only [pickGo, Option.some.injEq] at h
    exact Or.inl ⟨h.symm, fun c hc => absurd hc (List.not_mem_nil c)⟩
  | cons x rest ih =>
    intro bw bp w p h
    obtain ⟨w₁, ps₁⟩ := x
    simp only [pickGo] at h
    rcases hr : resolveDirFileDupes ps₁ with _ | p₁
    · simp [hr] at h
    simp only [hr] at h
    by_cases hrich : richer p₁ bp = true
    · rw [if_pos hrich] at h
      rcases ih w₁ p₁ w p h with ⟨heq, hmax⟩ | ⟨l₁, ps, l₂, hsplit, hres, hrp, hbefore, hafter⟩
      · right
        obtain ⟨hw, hp⟩ := Prod.mk.injEq .. ▸ heq
        refine ⟨[], ps₁, rest, ?_, ?_, ?_, by simp, ?_⟩
        · rw [hw]; simp
        · rw [hp]; exact hr
        · rw [hp]; exact hrich
        · intro c hc q hq
          have := hmax c hc q hq
          rw [hp]; exact this
      · right
        refine ⟨(w₁, ps₁) :: l₁, ps, l₂, by rw [hsplit]; rfl, hres,
          richer_trans hrp hrich, ?_, hafter⟩
        intro c hc q hq
        rcases List.mem_cons.mp hc with h' | h'
        · subst h'
          rw [hr] at hq
          injection hq with hq'
          subst hq'
          exact hrp
        · exact hbefore c h' q hq
    · rw [if_neg hrich] at h
      have hrichF : richer p₁ bp = false := Bool.eq_false_iff.mpr hrich
      rcases ih bw bp w p h with ⟨heq, hmax⟩ | ⟨l₁, ps, l₂, hsplit, hres, hrp, hbefore, hafter⟩
      · left
        refine ⟨heq, ?_⟩
        intro c hc q hq
        rcases List.mem_cons.mp hc with h' | h'
        · subst h'
          rw [hr] at hq
          injection hq with hq'
          subst hq'
          exact hrichF
        · exact hmax c h' q hq
      · right
        refine ⟨(w₁, ps₁) :: l₁, ps, l₂, by rw [hsplit]; rfl, hres, hrp, ?_, hafter⟩
        intro c hc q hq
        rcases List.mem_cons.mp hc with h' | h'
        · subst h'
          rw [hr] at hq
          injection hq with hq'
          subst hq'
          exact richer_step hrp hrichF
        · exact hbefore c h' q hq

/-! ## C3 — `pick_richer` selects by a fixed total order -/

/-- **C3**.  `pick_richer` selects its winner by the fixed total order
`richer` (container beats leaf regardless of size; among equal kinds,
strictly larger aggregate size wins): the winner is one of the candidates'
resolved nodes, no candidate's resolved node is strictly richer than it,
and it strictly beats every candidate before it — so on ties the earliest
candidate is kept, the characterization determines the winner uniquely,
and (the function being pure) applying it twice to the same candidates
yields the same winner. -/
theorem c3_pick_richer_total_order (cands : List Cand) (w : String) (p : Node)
    (h : pickRicher cands = some (w, p)) :
    ∃ l₁ ps l₂, cands = l₁ ++ (w, ps) :: l₂ ∧ resolveDirFileDupes ps = some p ∧
      (∀ c ∈ l₁, ∀ q, resolveDirFileDupes c.2 = some q → richer p q = true) ∧
      (∀ c ∈ l₂, ∀ q, resolveDirFileDupes c.2 = some q → richer q p = false) := by
  rcases cands with _ | ⟨⟨w₀, ps₀⟩, rest⟩
  · simp [pickRicher] at h
  simp only [pickRicher] at h
  rcases hr : resolveDirFileDupes ps₀ with _ | p₀
  · simp [hr] at h
  simp only [hr] at h
  rcases pickGo_spec rest w₀ p₀ w p h with ⟨heq, hmax⟩ |
    ⟨l₁, ps, l₂, hsplit, hres, hrp, hbefore, hafter⟩
  · obtain ⟨hw, hp⟩ := Prod.mk.injEq .. ▸ heq
    refine ⟨[], ps₀, rest, ?_, ?_, by simp, ?_⟩
    · rw [hw]; simp
    · rw [hp]; exact hr
    · intro c hc q hq
      have := hmax c hc q hq
      rw [hp]; exact this
  · refine ⟨(w₀, ps₀) :: l₁, ps, l₂, by rw [hsplit]; rfl, hres, ?_, hafter⟩
    intro c hc q hq
    rcases List.mem_cons.mp hc with h' | h'
    · subst h'
      rw [hr] at hq
      injection hq with hq'
      subst hq'
      exact hrp
    · exact hbefore c h' q hq

/-- Witness for C3: a leaf of size 100 loses to a container of size 5 — the
characterization applied to the concrete selection forces the winning
container to be strictly richer than the earlier, bigger leaf. -/
theorem c3_pick_richer_total_order_witness :
    richer (Node.mk "psf/people/X" "X" true 5 ["X/index.md"])
      (Node.mk "python/people/X.md" "X.md" false 100 []) = true := by
  obtain ⟨l₁, ps, l₂, hsplit, hres, hbefore, hafter⟩ :=
    c3_pick_richer_total_order
      [("python", [Node.mk "python/people/X.md" "X.md" false 100 []]),
       ("psf", [Node.mk "psf/people/X" "X" true 5 ["X/index.md"]])]
      "psf" (Node.mk "psf/people/X" "X" true 5 ["X/index.md"]) (by decide)
  rcases l₁ with _ | ⟨a, l₁'⟩
  · injection hsplit with h1 h2
    injection h1 with hw hp
    exact absurd hw (by decide)
  · rcases l₁' with _ | ⟨b, l₁''⟩
    · injection hsplit with ha htail
      subst ha
      exact hbefore _ (List.mem_cons_self _ _)
        (Node.mk "python/people/X.md" "X.md" false 100 []) (by decide)
    · injection hsplit with ha htail
      injection htail with hb htail2
      exact absurd htail2 (by simp)

/-! ## C8 — dry-run produces no effects -/

/-- **C8**.  With `--dry-run`, `main` returns right after printing the plan:
whatever the corpus and the persisted mapping, a successful dry run
performs no move, no removal, no write of `_redirects.json` and no index
edit — its effect list is empty. -/
theorem c8_dry_run_no_effects (py psf jy : List (String × List Node))
    (existing : List (String × String)) (effs : List Effect)
    (h : mainRun true py psf jy existing = some effs) : effs = [] := by
  simp only [mainRun] at h
  split at h
  · cases h
  · split at h
    · cases h
    · rw [if_pos trivial] at h
      exact (Option.some.inj h).symm

/-- Witness for C8: a corpus that in live mode would move a page still
yields an empty dry-run effect list. -/
theorem c8_dry_run_no_effects_witness :
    mainRun true [("JohnSmith", [Node.mk "python/people/JohnSmith.md" "JohnSmith.md" false 10 []])]
      [] [] [] = some [] := by
  obtain ⟨effs, he⟩ : ∃ effs,
      mainRun true
        [("JohnSmith", [Node.mk "python/people/JohnSmith.md" "JohnSmith.md" false 10 []])]
        [] [] [] = some effs := ⟨[], by decide⟩
  rw [c8_dry_run_no_effects _ _ _ _ effs he] at he
  exact he

/-! ## Shared lemmas: plan membership and disjointness -/

theorem resolve_mem {ps : List Node} {w : Node}
    (h : resolveDirFileDupes ps = some w) : w ∈ ps := by
  rw [resolveDirFileDupes] at h
  rcases hf : ps.find? (fun p => p.isDir) with _ | d
  · simp only [hf] at h
    exact List.mem_of_mem_head? (Option.mem_def.mpr h)
  · simp only [hf] at h
    injection h with h'
    subst h'
    exact List.mem_of_find?_eq_some hf

theorem mem_candPaths {cands : List Cand} {c : Cand} (hc : c ∈ cands)
    {x : Node} (hx : x ∈ c.2) : x.path ∈ candPaths cands := by
  induction cands with
  | nil => exact absurd hc (List.not_mem_nil c)
  | cons c₀ rest ih =>
    rw [candPaths]
    rcases List.mem_cons.mp hc with h' | h'
    · subst h'
      exact List.mem_append_left _ (List.mem_map.mpr ⟨x, hx, rfl⟩)
    · exact List.mem_append_right _ (ih h')

theorem pickGo_winner :
    ∀ (xs : List Cand) (bw : String) (bp : Node) (w : String) (p : Node),
      pickGo bw bp xs = some (w, p) →
      p = bp ∨ ∃ c ∈ xs, resolveDirFileDupes c.2 = some p := by
  intro xs
  induction xs with
  | nil =>
    intro bw bp w p h
    simp only [pickGo, Option.some.injEq] at h
    exact Or.inl (congrArg Prod.snd h.symm)
  | cons x rest ih =>
    intro bw bp w p h
    obtain ⟨w₁, ps₁⟩ := x
    simp only [pickGo] at h
    rcases hr : resolveDirFileDupes ps₁ with _ | p₁
    · simp [hr] at h
    simp only [hr] at h
    by_cases hrich : richer p₁ bp = true
    · rw [if_pos hrich] at h
      rcases ih w₁ p₁ w p h with h' | ⟨c, hc, hcres⟩
      · exact Or.inr ⟨(w₁, ps₁), List.mem_cons_self _ _, h' ▸ hr⟩
      · exact Or.inr ⟨c, List.mem_cons_of_mem _ hc, hcres⟩
    · rw [if_neg hrich] at h
      rcases ih bw bp w p h with h' | ⟨c, hc, hcres⟩
      · exact Or.inl h'
      · exact Or.inr ⟨c, List.mem_cons_of_mem _ hc, hcres⟩

theorem pickRicher_winner {cands : List Cand} {w : String} {p : Node}
    (h : pickRicher cands = some (w, p)) :
    ∃ c ∈ cands, resolveDirFileDupes c.2 = some p := by
  rcases cands with _ | ⟨⟨w₀, ps₀⟩, rest⟩
  · simp [pickRicher] at h
  simp only [pickRicher] at h
  rcases hr : resolveDirFileDupes ps₀ with _ | p₀
  · simp [hr] at h
  simp only [hr] at h
  rcases pickGo_winner rest w₀ p₀ w p h with h' | ⟨c, hc, hcres⟩
  · exact ⟨(w₀, ps₀), List.mem_cons_self _ _, h' ▸ hr⟩
  · exact ⟨c, List.mem_cons_of_mem _ hc, hcres⟩

theorem dupeRemoves_sub {wp : Node} :
    ∀ {cands : List Cand} {r : List String}, dupeRemoves wp cands = some r →
      ∀ s ∈ r, s ∈ candPaths cands := by
  intro cands
  induction cands with
  | nil =>
    intro r h s hs
    simp only [dupeRemoves, Option.some.injEq] at h
    subst h
    exact absurd hs (List.not_mem_nil s)
  | cons c rest ih =>
    intro r h s hs
    obtain ⟨w₁, ps₁⟩ := c
    simp only [dupeRemoves] at h
    rcases hr : resolveDirFileDupes ps₁ with _ | wl
    · simp [hr] at h
    simp only [hr, Option.map_eq_some'] at h
    obtain ⟨rs, hrs, hreq⟩ := h
    subst hreq
    rw [candPaths]
    rcases List.mem_append.mp hs with h' | h'
    · refine List.mem_append_left _ ?_
      by_cases hwl : wl.path ≠ wp.path
      · rw [if_pos hwl] at h'
        exact h'
      · rw [if_neg hwl] at h'
        obtain ⟨q, hq, hqe⟩ := List.mem_map.mp h'
        exact List.mem_map.mpr ⟨q, List.mem_of_mem_filter hq, hqe⟩
    · exact List.mem_append_right _ (ih hrs s h')

theorem dupeRemoves_not_winner {wp : Node} :
    ∀ {cands : List Cand} {r : List String}, dupeRemoves wp cands = some r →
      (candPaths cands).Nodup →
      (∃ c ∈ cands, resolveDirFileDupes c.2 = some wp) →
      wp.path ∉ r := by
  intro cands
  induction cands with
  | nil =>
    intro r h _ _
    simp only [dupeRemoves, Option.some.injEq] at h
    subst h
    exact List.not_mem_nil _
  | cons c rest ih =>
    intro r h hnd hwin
    obtain ⟨w₁, ps₁⟩ := c
    simp only [dupeRemoves] at h
    rcases hr : resolveDirFileDupes ps₁ with _ | wl
    · simp [hr] at h
    simp only [hr, Option.map_eq_some'] at h
    obtain ⟨rs, hrs, hreq⟩ := h
    subst hreq
    rw [candPaths, List.nodup_append] at hnd
    obtain ⟨hnd1, hnd2, hdisj⟩ := hnd
    intro hmem
    rcases List.mem_append.mp hmem with h' | h'
    · -- hit in this wiki's contribution
      by_cases hwl : wl.path ≠ wp.path
      · rw [if_pos hwl] at h'
        -- all of ps₁ was removed, so wp.path is among this wiki's paths;
        -- but the winner lives in some candidate, and the candidates'
        -- path lists are disjoint
        rcases hwin with ⟨c', hc', hres'⟩
        rcases List.mem_cons.mp hc' with hh | hh
        · -- the winner is this very wiki: then wl = wp, contradiction
          subst hh
          have hres2 : resolveDirFileDupes ps₁ = some wp := hres'
          have heq := hres2.symm.trans hr
          injection heq with heq'
          exact hwl (congrArg Node.path heq'.symm)
        · -- the winner is a later wiki: wp.path also occurs there,
          -- contradicting disjointness
          have hlater : wp.path ∈ candPaths rest :=
            mem_candPaths hh (resolve_mem hres')
          exact hdisj h' hlater
      · rw [if_neg hwl] at h'
        obtain ⟨q, hq, hqe⟩ := List.mem_map.mp h'
        have hneq : q.path ≠ wp.path := by simpa using List.of_mem_filter hq
        exact hneq hqe
    · -- hit in a later wiki's contribution
      rcases hwin with ⟨c', hc', hres'⟩
      rcases List.mem_cons.mp hc' with hh | hh
      · -- winner is this wiki: wp ∈ ps₁, so wp.path cannot also be in rest
        subst hh
        have hres2 : resolveDirFileDupes ps₁ = some wp := hres'
        have hwp1 : wp.path ∈ ps₁.map (fun p => p.path) :=
          List.mem_map.mpr ⟨wp, resolve_mem hres2, rfl⟩
        exact hdisj hwp1 (dupeRemoves_sub hrs _ h')
      · exact ih hrs hnd2 ⟨c', hh, hres'⟩ h'

theorem stemPlan_moves {stem : String} {cands : List Cand}
    {m : List Move} {r : List String} {d : List (String × String)}
    (h : stemPlan stem cands = some (m, r, d)) :
    ∀ mv ∈ m, mv.1 ∈ candPaths cands := by
  rcases cands with _ | ⟨c1, _ | ⟨c2, rest⟩⟩
  · simp [stemPlan] at h
  · obtain ⟨wiki, ps⟩ := c1
    simp only [stemPlan, Option.map_eq_some'] at h
    obtain ⟨winner, hres, heq⟩ := h
    injection heq with h1 h2
    injection h2 with h2 h3
    subst h1
    intro mv hmv
    rcases List.mem_cons.mp hmv with h' | h'
    · subst h'
      rw [candPaths, candPaths]
      exact List.mem_append_left _
        (List.mem_map.mpr ⟨winner, resolve_mem hres, rfl⟩)
    · exact absurd h' (List.not_mem_nil mv)
  · simp only [stemPlan] at h
    rcases hp : pickRicher (c1 :: c2 :: rest) with _ | ⟨ww, wp⟩
    · rw [hp] at h; cases h
    rw [hp] at h
    simp only [Option.map_eq_some'] at h
    obtain ⟨rms, hrms, heq⟩ := h
    injection heq with h1 h2
    injection h2 with h2 h3
    subst h1
    intro mv hmv
    rcases List.mem_cons.mp hmv with h' | h'
    · subst h'
      obtain ⟨c, hc, hcres⟩ := pickRicher_winner hp
      exact mem_candPaths hc (resolve_mem hcres)
    · exact absurd h' (List.not_mem_nil mv)

theorem stemPlan_removes {stem : String} {cands : List Cand}
    {m : List Move} {r : List String} {d : List (String × String)}
    (h : stemPlan stem cands = some (m, r, d)) :
    ∀ s ∈ r, s ∈ candPaths cands := by
  rcases cands with _ | ⟨c1, _ | ⟨c2, rest⟩⟩
  · simp [stemPlan] at h
  · obtain ⟨wiki, ps⟩ := c1
    simp only [stemPlan, Option.map_eq_some'] at h
    obtain ⟨winner, hres, heq⟩ := h
    injection heq with h1 h2
    injection h2 with h2 h3
    subst h2
    intro s hs
    obtain ⟨q, hq, hqe⟩ := List.mem_map.mp hs
    rw [candPaths, candPaths]
    exact List.mem_append_left _
      (List.mem_map.mpr ⟨q, List.mem_of_mem_filter hq, hqe⟩)
  · simp only [stemPlan] at h
    rcases hp : pickRicher (c1 :: c2 :: rest) with _ | ⟨ww, wp⟩
    · rw [hp] at h; cases h
    rw [hp] at h
    simp only [Option.map_eq_some'] at h
    obtain ⟨rms, hrms, heq⟩ := h
    injection heq with h1 h2
    injection h2 with h2 h3
    subst h2
    exact dupeRemoves_sub hrms

theorem stemPlan_disjoint {stem : String} {cands : List Cand}
    {m : List Move} {r : List String} {d : List (String × String)}
    (h : stemPlan stem cands = some (m, r, d))
    (hnd : (candPaths cands).Nodup) :
    ∀ mv ∈ m, mv.1 ∉ r := by
  rcases cands with _ | ⟨c1, _ | ⟨c2, rest⟩⟩
  · simp [stemPlan] at h
  · obtain ⟨wiki, ps⟩ := c1
    simp only [stemPlan, Option.map_eq_some'] at h
    obtain ⟨winner, hres, heq⟩ := h
    injection heq with h1 h2
    injection h2 with h2 h3
    subst h1
    subst h2
    intro mv hmv hbad
    rcases List.mem_cons.mp hmv with h' | h'
    · subst h'
      obtain ⟨q, hq, hqe⟩ := List.mem_map.mp hbad
      have hneq : q.path ≠ winner.path := by simpa using List.of_mem_filter hq
      exact hneq hqe
    · exact absurd h' (List.not_mem_nil mv)
  · simp only [stemPlan] at h
    rcases hp : pickRicher (c1 :: c2 :: rest) with _ | ⟨ww, wp⟩
    · rw [hp] at h; cases h
    rw [hp] at h
    simp only [Option.map_eq_some'] at h
    obtain ⟨rms, hrms, heq⟩ := h
    injection heq with h1 h2
    injection h2 with h2 h3
    subst h1
    subst h2
    intro mv hmv hbad
    rcases List.mem_cons.mp hmv with h' | h'
    · subst h'
      have hwin : ∃ c ∈ c1 :: c2 :: rest, resolveDirFileDupes c.2 = some wp := by
        obtain ⟨c, hc, hcres⟩ := pickRicher_winner hp
        exact ⟨c, hc, hcres⟩
      exact dupeRemoves_not_winner hrms hnd hwin hbad
    · exact absurd h' (List.not_mem_nil mv)

theorem plansFor_moves {ap : List (String × List Cand)}
    {m : List Move} {r : List String} {d : List (String × String)}
    (h : plansFor ap = some (m, r, d)) :
    ∀ mv ∈ m, mv.1 ∈ apPaths ap := by
  induction ap generalizing m r d with
  | nil =>
    simp only [plansFor, Option.some.injEq, Prod.mk.injEq] at h
    obtain ⟨h1, -, -⟩ := h
    subst h1
    intro mv hmv
    exact absurd hmv (List.not_mem_nil mv)
  | cons sc rest ih =>
    obtain ⟨stem, cands⟩ := sc
    simp only [plansFor] at h
    rcases h1 : stemPlan stem cands with _ | ⟨⟨m₁, r₁, d₁⟩⟩
    · rw [h1] at h; cases h
    rcases h2 : plansFor rest with _ | ⟨⟨m', r', d'⟩⟩
    · rw [h1, h2] at h; cases h
    rw [h1, h2] at h
    simp only [Option.some.injEq, Prod.mk.injEq] at h
    obtain ⟨hm, hr, hd⟩ := h
    subst hm
    intro mv hmv
    rw [apPaths]
    rcases List.mem_append.mp hmv with h' | h'
    · exact List.mem_append_left _ (stemPlan_moves h1 mv h')
    · exact List.mem_append_right _ (ih h2 mv h')

theorem plansFor_removes {ap : List (String × List Cand)}
    {m : List Move} {r : List String} {d : List (String × String)}
    (h : plansFor ap = some (m, r, d)) :
    ∀ s ∈ r, s ∈ apPaths ap := by
  induction ap generalizing m r d with
  | nil =>
    simp only [plansFor, Option.some.injEq, Prod.mk.injEq] at h
    obtain ⟨-, h2, -⟩ := h
    subst h2
    intro s hs
    exact absurd hs (List.not_mem_nil s)
  | cons sc rest ih =>
    obtain ⟨stem, cands⟩ := sc
    simp only [plansFor] at h
    rcases h1 : stemPlan stem cands with _ | ⟨⟨m₁, r₁, d₁⟩⟩
    · rw [h1] at h; cases h
    rcases h2 : plansFor rest with _ | ⟨⟨m', r', d'⟩⟩
    · rw [h1, h2] at h; cases h
    rw [h1, h2] at h
    simp only [Option.some.injEq, Prod.mk.injEq] at h
    obtain ⟨hm, hr, hd⟩ := h
    subst hr
    intro s hs
    rw [apPaths]
    rcases List.mem_append.mp hs with h' | h'
    · exact List.mem_append_left _ (stemPlan_removes h1 s h')
    · exact List.mem_append_right _ (ih h2 s h')

theorem plansFor_disjoint {ap : List (String × List Cand)}
    {m : List Move} {r : List String} {d : List (String × String)}
    (h : plansFor ap = some (m, r, d)) (hnd : (apPaths ap).Nodup) :
    ∀ mv ∈ m, mv.1 ∉ r := by
  induction ap generalizing m r d with
  | nil =>
    simp only [plansFor, Option.some.injEq, Prod.mk.injEq] at h
    obtain ⟨h1, -, -⟩ := h
    subst h1
    intro mv hmv
    exact absurd hmv (List.not_mem_nil mv)
  | cons sc rest ih =>
    obtain ⟨stem, cands⟩ := sc
    simp only [plansFor] at h
    rcases h1 : stemPlan stem cands with _ | ⟨⟨m₁, r₁, d₁⟩⟩
    · rw [h1] at h; cases h
    rcases h2 : plansFor rest with _ | ⟨⟨m', r', d'⟩⟩
    · rw [h1, h2] at h; cases h
    rw [h1, h2] at h
    simp only [Option.some.injEq, Prod.mk.injEq] at h
    obtain ⟨hm, hr, hd⟩ := h
    subst hm
    subst hr
    rw [apPaths, List.nodup_append] at hnd
    obtain ⟨hnd1, hnd2, hdisj⟩ := hnd
    intro mv hmv hbad
    rcases List.mem_append.mp hmv with h' | h' <;>
      rcases List.mem_append.mp hbad with hb | hb
    · exact stemPlan_disjoint h1 hnd1 mv h' hb
    · exact hdisj (stemPlan_moves h1 mv h') (plansFor_removes h2 _ hb)
    · exact hdisj (stemPlan_removes h1 _ hb) (plansFor_moves h2 mv h')
    · exact ih h2 hnd2 mv h' hb

theorem nonPersonPlan_moves {npy : List (String × List Node)} :
    ∀ mv ∈ (nonPersonPlan npy).1, mv.1 ∈ entryPaths npy := by
  induction npy with
  | nil =>
    intro mv hmv
    exact absurd hmv (List.not_mem_nil mv)
  | cons e rest ih =>
    obtain ⟨stem, ps⟩ := e
    intro mv hmv
    simp only [nonPersonPlan] at hmv
    rw [entryPaths]
    rcases List.mem_append.mp hmv with h' | h'
    · obtain ⟨q, hq, hqe⟩ := List.mem_map.mp h'
      exact List.mem_append_left _ (List.mem_map.mpr ⟨q, hq, by rw [← hqe]⟩)
    · exact List.mem_append_right _ (ih mv h')

theorem jythonPlan_moves {njy : List (String × List Node)}
    {jm : List Move} {jd : List (String × String)}
    (h : jythonPlan njy = some (jm, jd)) :
    ∀ mv ∈ jm, mv.1 ∈ entryPaths njy := by
  induction njy generalizing jm jd with
  | nil =>
    simp only [jythonPlan, Option.some.injEq, Prod.mk.injEq] at h
    obtain ⟨h1, -⟩ := h
    subst h1
    intro mv hmv
    exact absurd hmv (List.not_mem_nil mv)
  | cons e rest ih =>
    obtain ⟨stem, ps⟩ := e
    simp only [jythonPlan] at h
    rcases ht : dlookup stem JYTHON_NON_PERSON with _ | target
    · rw [ht] at h; cases h
    rw [ht] at h
    simp only [Option.map_eq_some'] at h
    obtain ⟨⟨jm', jd'⟩, hrest, heq⟩ := h
    injection heq with h1 h2
    subst h1
    intro mv hmv
    rw [entryPaths]
    rcases List.mem_append.mp hmv with h' | h'
    · obtain ⟨q, hq, hqe⟩ := List.mem_map.mp h'
      exact List.mem_append_left _ (List.mem_map.mpr ⟨q, hq, by rw [← hqe]⟩)
    · exact List.mem_append_right _ (ih hrest mv h')

/-! ## C6 — move sources and removal sources are disjoint -/

/-- **C6**.  In the plan built from a classified and reconciled corpus in
which every physical node path occurs once (as on a real filesystem), no
path is both the source of a scheduled move and the target of a scheduled
removal: person-merge moves never collide with the removals of their own
stem (the winner is filtered out of its wiki's removals, and losing wikis
cannot contain the winner's path), and non-person relocations generate no
removals at all. -/
theorem c6_move_remove_disjoint
    (ap : List (String × List Cand)) (npy njy : List (String × List Node))
    (mv : List Move) (rm : List String) (reds : List (String × String))
    (jmv : List Move) (jreds : List (String × String))
    (hap : plansFor ap = some (mv, rm, reds))
    (hjy : jythonPlan njy = some (jmv, jreds))
    (hnd : (apPaths ap ++ entryPaths npy ++ entryPaths njy).Nodup) :
    ∀ s ∈ (mv ++ (nonPersonPlan npy).1 ++ jmv).map Prod.fst, s ∉ rm := by
  rw [List.nodup_append] at hnd
  obtain ⟨hndAB, hndC, hdisjC⟩ := hnd
  rw [List.nodup_append] at hndAB
  obtain ⟨hndA, hndB, hdisjAB⟩ := hndAB
  intro s hs hbad
  obtain ⟨md, hmd, hse⟩ := List.mem_map.mp hs
  subst hse
  rcases List.mem_append.mp hmd with hmd' | hjm
  · rcases List.mem_append.mp hmd' with hmv | hnp
    · exact plansFor_disjoint hap hndA md hmv hbad
    · exact hdisjAB (plansFor_removes hap _ hbad) (nonPersonPlan_moves md hnp)
  · exact hdisjC
      (List.mem_append_left _ (plansFor_removes hap _ hbad))
      (jythonPlan_moves hjy md hjm)

/-- Witness for C6: a cross-wiki duplicate (a psf directory beating a
python file, whose page is removed), one python non-person and one jython
non-person; the winning move's source is not among the removals. -/
theorem c6_move_remove_disjoint_witness :
    "psf/people/JohnSmith" ∈ (([("psf/people/JohnSmith", "people/JohnSmith")] ++
        (nonPersonPlan [("FrontPage",
          [Node.mk "python/people/FrontPage.md" "FrontPage.md" false 7 []])]).1 ++
        [("jython/people/SummerOfCode.md", "jython/community/SummerOfCode.md")]).map
          Prod.fst) ∧
    "psf/people/JohnSmith" ∉ ["python/people/JohnSmith.md"] :=
  ⟨by decide,
  c6_move_remove_disjoint
    [("JohnSmith", [("python", [Node.mk "python/people/JohnSmith.md" "JohnSmith.md" false 100 []]),
                    ("psf", [Node.mk "psf/people/JohnSmith" "JohnSmith" true 5 ["JohnSmith/index.md"]])])]
    [("FrontPage", [Node.mk "python/people/FrontPage.md" "FrontPage.md" false 7 []])]
    [("SummerOfCode", [Node.mk "jython/people/SummerOfCode.md" "SummerOfCode.md" false 3 []])]
    [("psf/people/JohnSmith", "people/JohnSmith")]
    ["python/people/JohnSmith.md"]
    [("python/people/JohnSmith", "people/JohnSmith"),
     ("psf/people/JohnSmith/index", "people/JohnSmith/index"),
     ("psf/people/JohnSmith", "people/JohnSmith"),
     ("psf/people/JohnSmith/index", "people/JohnSmith/index")]
    [("jython/people/SummerOfCode.md", "jython/community/SummerOfCode.md")]
    [("jython/people/SummerOfCode", "jython/community/SummerOfCode")]
    (by decide) (by decide) (by decide) "psf/people/JohnSmith" (by decide)⟩
